import Mathlib

/-!
Verification of the question-flow and content-selection engine of the
llm-compiler-cli repository, against its natural-language specification.

The TypeScript sources are shallowly embedded:
* JavaScript runtime values (`any`) are modelled by the inductive `JsValue`;
  property access on non-objects is modelled as `undefined` (prototype
  properties such as `"abc".length` are out of scope for the data handled
  here, which is plain JSON-like configuration data).
* `Record<string, any>` objects are association lists `List (String × JsValue)`;
  answer sets (`Record<string, any>` keyed by question id) are modelled as
  total functions `String → JsValue`, a key that was never answered mapping
  to `JsValue.vUndefined`.
* The ambient clock (`new Date()`): every function of the source that reads
  the clock is given the reading as an explicit argument (`today` for
  `toLocaleDateString()`, `now` for the `Date` stored in metadata).
-/

namespace LlmCompiler

/-- Model of a JavaScript runtime value as stored in configurations and
answer records. -/
inductive JsValue where
  | vUndefined : JsValue
  | vNull : JsValue
  | vBool : Bool → JsValue
  | vStr : String → JsValue
  | vNum : Int → JsValue
  | vArr : List JsValue → JsValue
  | vObj : List (String × JsValue) → JsValue

/-- JavaScript strict equality `===` (also the SameValueZero test used by
`Array.prototype.includes`): primitives compare by value; arrays and
objects compare by reference, so two composite values of distinct
provenance (one from the rule data, one from the configuration) are never
strictly equal — modelled as `false`. -/
def jsStrictEq : JsValue → JsValue → Bool
  | .vUndefined, .vUndefined => true
  | .vNull, .vNull => true
  | .vBool a, .vBool b => a == b
  | .vStr a, .vStr b => a == b
  | .vNum a, .vNum b => a == b
  | _, _ => false

/-- JavaScript truthiness of a value (`undefined`, `null`, `false`, `''` and
`0` are falsy; arrays and objects are always truthy). -/
def truthy : JsValue → Bool
  | .vUndefined => false
  | .vNull => false
  | .vBool b => b
  | .vStr s => !(s == "")
  | .vNum n => !(n == 0)
  | .vArr _ => true
  | .vObj _ => true

/-- An answer set: `Record<string, any>` keyed by question id.  A question
that was never answered maps to `vUndefined`. -/
def Answers : Type := String → JsValue

/-- `src/src/core/types.ts` — `QuestionType`. -/
inductive QuestionType where
  | single : QuestionType
  | multiple : QuestionType
  | boolean : QuestionType
  | text : QuestionType
deriving DecidableEq

/-- `src/src/core/types.ts` — `QuestionSchema` / `Question` (the
`QuestionTypes.ts` interface has the same fields).  The source's `type`
field is named `qtype` (`type` is reserved in Lean); `default` is `dflt`. -/
structure Question where
  id : String
  text : String
  qtype : QuestionType
  options : Option (List String)
  dflt : Option JsValue
  dependencies : Option (List String)
  category : String
  required : Bool
  description : Option String

/-! The 19 questions of `src/src/core/question-engine/questions.ts`, in
declaration order.  None of them sets `required`, so the zod default
`required: true` applies to all. -/

def qProjectType : Question :=
  ⟨"projectType", "What type of project are you building?", .single,
   some ["typescript", "javascript", "python", "other"],
   some (.vStr "typescript"), none, "project", true,
   some "This determines the base language-specific guidelines"⟩

def qFollowTDD : Question :=
  ⟨"followTDD", "Do you want to follow Test-Driven Development (TDD)?", .boolean,
   none, some (.vBool true), none, "philosophy", true,
   some "TDD means writing tests before implementation code"⟩

def qStrictArchitecture : Question :=
  ⟨"strictArchitecture", "Do you want strictly enforced architecture?", .boolean,
   none, some (.vBool true), none, "philosophy", true,
   some "Enforces clean architecture patterns and boundaries"⟩

def qFunctionalProgramming : Question :=
  ⟨"functionalProgramming", "Do you prefer functional programming patterns?", .boolean,
   none, some (.vBool true), none, "philosophy", true,
   some "Immutable data, pure functions, composition over inheritance"⟩

def qLinting : Question :=
  ⟨"linting", "Which linting tools do you use?", .multiple,
   some ["eslint", "stylelint", "prettier"],
   some (.vArr [.vStr "eslint", .vStr "prettier"]), none, "tools", true,
   some "Code quality and formatting tools"⟩

def qTestingFramework : Question :=
  ⟨"testingFramework", "Which testing frameworks do you use?", .multiple,
   some ["vitest", "jest", "react-testing-library", "cypress", "playwright"],
   some (.vArr [.vStr "vitest", .vStr "react-testing-library"]),
   some ["followTDD"], "tools", true,
   some "Testing tools and frameworks"⟩

def qUiFramework : Question :=
  ⟨"uiFramework", "Which UI framework are you using?", .single,
   some ["react", "vue", "angular", "svelte", "none"],
   none, none, "tools", true,
   some "Frontend framework for UI development"⟩

def qStateManagement : Question :=
  ⟨"stateManagement", "What state management solution do you use?", .single,
   some ["redux", "zustand", "context", "mobx", "none"],
   none, some ["uiFramework"], "tools", true,
   some "Global state management approach"⟩

def qI18n : Question :=
  ⟨"i18n", "Do you need internationalization (i18n) support?", .boolean,
   none, some (.vBool false), none, "tools", true,
   some "Multi-language support for your application"⟩

def qAccessibility : Question :=
  ⟨"accessibility", "Do you need accessibility (a11y) compliance?", .boolean,
   none, some (.vBool true), none, "quality", true,
   some "WCAG guidelines and screen reader support"⟩

def qPerformance : Question :=
  ⟨"performance", "Do you want performance optimization guidelines?", .boolean,
   none, some (.vBool true), none, "quality", true,
   some "Performance monitoring and optimization techniques"⟩

def qSecurity : Question :=
  ⟨"security", "Do you need security best practices?", .boolean,
   none, some (.vBool true), none, "quality", true,
   some "Secure coding practices and vulnerability prevention"⟩

def qCodeReview : Question :=
  ⟨"codeReview", "Do you want code review process guidelines?", .boolean,
   none, some (.vBool true), none, "quality", true,
   some "Pull request and code review standards"⟩

def qCicd : Question :=
  ⟨"cicd", "Do you use CI/CD pipelines?", .boolean,
   none, some (.vBool false), none, "infrastructure", true,
   some "Continuous integration and deployment practices"⟩

def qLogging : Question :=
  ⟨"logging", "Do you need logging guidelines?", .boolean,
   none, some (.vBool false), none, "infrastructure", true,
   some "Structured logging and monitoring practices"⟩

def qMonitoring : Question :=
  ⟨"monitoring", "Do you use application monitoring?", .boolean,
   none, some (.vBool false), none, "infrastructure", true,
   some "APM tools and error tracking"⟩

def qDocumentation : Question :=
  ⟨"documentation", "Do you want documentation standards?", .boolean,
   none, some (.vBool true), none, "infrastructure", true,
   some "Code documentation and README guidelines"⟩

def qOutputFormats : Question :=
  ⟨"outputFormats", "Which output formats do you want?", .multiple,
   some ["claude", "vscode", "readme", "cursor", "all"],
   some (.vArr [.vStr "all"]), none, "output", true,
   some "Generated instruction formats"⟩

def qProjectName : Question :=
  ⟨"projectName", "What is your project name?", .text,
   none, some (.vStr "My Project"), none, "output", true,
   some "Used in generated documentation"⟩

/-- `questions.ts` — the canonical question list, in declaration order. -/
def questions : List Question :=
  [qProjectType, qFollowTDD, qStrictArchitecture, qFunctionalProgramming,
   qLinting, qTestingFramework, qUiFramework, qStateManagement, qI18n,
   qAccessibility, qPerformance, qSecurity, qCodeReview, qCicd, qLogging,
   qMonitoring, qDocumentation, qOutputFormats, qProjectName]

/-- `questions.ts` line 190 — the dependency test used by `getNextQuestion`:
`answers[dep] === true || (Array.isArray(answers[dep]) && answers[dep].length > 0)`. -/
def depMetQE (answers : Answers) (dep : String) : Bool :=
  jsStrictEq (answers dep) (JsValue.vBool true) ||
  (match answers dep with
   | .vArr xs => decide (0 < xs.length)
   | _ => false)

/-- The body of the skip-scan of `getNextQuestion`: scan the remaining
question list (the questions strictly after the current index) and return
the first one whose declared dependencies are all met (a question without a
`dependencies` field is returned unconditionally).  The source performs
this scan by self-recursion on the next question's id; `getNextQuestionFuel`
below is that literal recursion, and `getNextQuestionFuel_eq` proves the two
agree. -/
def scanQuestions (answers : Answers) : List Question → Option Question
  | [] => none
  | q :: rest =>
    match q.dependencies with
    | some deps => if deps.all (depMetQE answers) then some q else scanQuestions answers rest
    | none => some q

/-- `questions.ts` lines 172–200 — `getNextQuestion`.  A null current id
returns `questions[0]`; JavaScript's `!currentQuestionId` is also true for
the empty string, which therefore behaves like null.  An id not found by
`findIndex` (result `-1`), or the last index, yields `null`. -/
def getNextQuestion (curr : Option String) (answers : Answers) : Option Question :=
  match curr with
  | none => questions.head?
  | some id =>
    if id = "" then questions.head?
    else
      match questions.findIdx? (fun q => q.id == id) with
      | none => none
      | some i =>
        if i + 1 < questions.length then scanQuestions answers (questions.drop (i + 1))
        else none

/-- The literal self-recursion of the source's `getNextQuestion` (which
calls itself with the id of the question it skips, re-running `findIndex`
each time), instrumented with explicit fuel: one unit of fuel is one call.
`none` means the fuel ran out. -/
def getNextQuestionFuel (fuel : Nat) (curr : Option String) (answers : Answers) :
    Option (Option Question) :=
  match fuel with
  | 0 => none
  | fuel + 1 =>
    match curr with
    | none => some questions.head?
    | some id =>
      if id = "" then some questions.head?
      else
        match questions.findIdx? (fun q => q.id == id) with
        | none => some none
        | some i =>
          if h : i + 1 < questions.length then
            let nq := questions.get ⟨i + 1, h⟩
            match nq.dependencies with
            | some deps =>
              if deps.all (depMetQE answers) then some (some nq)
              else getNextQuestionFuel fuel (some nq.id) answers
            | none => some (some nq)
          else some none

/-- The prerequisite-satisfaction rule as the specification words it
(§4.1): a boolean answer satisfies iff `true`; a sequence iff non-empty; a
string iff non-blank after trimming; any other value iff it is defined
(not absent/null). -/
def specPrereqSatisfied (v : JsValue) : Prop :=
  match v with
  | .vBool b => b = true
  | .vArr xs => xs ≠ []
  | .vStr s => s.trim ≠ ""
  | .vNull => False
  | .vUndefined => False
  | _ => True

/-! ## CategoryManager (`src/EXTENSIBILITY_PLAN.md`, embedded source of
`CategoryManager.ts`): `checkDependencies` and `validateAnswers`. -/

/-- `CategoryManager.checkDependencies`, per dependency id: a boolean
answer meets the dependency iff it is `true`; an array iff non-empty; a
string iff its trim is non-empty; otherwise iff it is not
null/undefined (`answer != null`). -/
def depMetCM (answers : Answers) (dep : String) : Bool :=
  match answers dep with
  | .vBool b => b == true
  | .vArr xs => decide (0 < xs.length)
  | .vStr s => decide (0 < s.trim.length)
  | .vUndefined => false
  | .vNull => false
  | _ => true

/-- JavaScript string conversion as performed by template literals and
`Array.prototype.join` on the answer values occurring here (arrays join
their elements with `,`; objects print as `[object Object]`). -/
def jsString : JsValue → String
  | .vStr s => s
  | .vBool b => if b then "true" else "false"
  | .vNum n => toString n
  | .vNull => "null"
  | .vUndefined => "undefined"
  | .vArr xs => String.intercalate "," (xs.attach.map (fun x => jsString x.1))
  | .vObj _ => "[object Object]"
decreasing_by
  have hx := List.sizeOf_lt_of_mem x.2
  simp only [JsValue.vArr.sizeOf_spec]
  omega

/-- `question.options.includes(answer)`: the answer (an arbitrary value)
is a member of the string option list under strict equality. -/
def valueInOptions (a : JsValue) (opts : List String) : Bool :=
  opts.any (fun o => jsStrictEq (JsValue.vStr o) a)

/-- `answer == null || answer === ''` — the missing-answer test of
`validateAnswers` (loose equality with null also matches undefined). -/
def isMissingAnswer (a : JsValue) : Bool :=
  match a with
  | .vUndefined => true
  | .vNull => true
  | .vStr s => s == ""
  | _ => false

/-- `answer == null` (loose): true exactly for null and undefined. -/
def isNullish (a : JsValue) : Bool :=
  match a with
  | .vUndefined => true
  | .vNull => true
  | _ => false

/-- The `switch (question.type)` format checks of
`CategoryManager.validateAnswers`, run only on non-nullish answers. -/
def questionTypeErrors (q : Question) (a : JsValue) : List String :=
  match q.qtype with
  | .single =>
    match q.options with
    | some opts =>
      if !(valueInOptions a opts) then
        ["Invalid answer for \"" ++ q.text ++ "\": " ++ jsString a]
      else []
    | none => []
  | .multiple =>
    match a with
    | .vArr xs =>
      match q.options with
      | some opts =>
        let invalidOptions := xs.filter (fun x => !(valueInOptions x opts))
        if !invalidOptions.isEmpty then
          ["Invalid options for \"" ++ q.text ++ "\": " ++
            String.intercalate ", " (invalidOptions.map jsString)]
        else []
      | none => []
    | _ => ["Answer for \"" ++ q.text ++ "\" must be an array"]
  | .boolean =>
    match a with
    | .vBool _ => []
    | _ => ["Answer for \"" ++ q.text ++ "\" must be true or false"]
  | .text =>
    match a with
    | .vStr _ => []
    | _ => ["Answer for \"" ++ q.text ++ "\" must be text"]

/-- The skip test at the top of the `validateAnswers` loop:
`question.dependencies && question.dependencies.length > 0` and the
dependencies are not all met. -/
def shouldSkipQuestion (answers : Answers) (q : Question) : Bool :=
  match q.dependencies with
  | some deps => !deps.isEmpty && !(deps.all (depMetCM answers))
  | none => false

/-- The missing-required error message pushed by `validateAnswers`. -/
def requiredMissingMsg (q : Question) : String :=
  "Question \"" ++ q.text ++ "\" is required but not answered"

/-- The errors contributed by one question in one pass of the
`validateAnswers` loop (the `continue` after a missing-required error means
that at most that one error is produced for the question). -/
def questionErrors (answers : Answers) (q : Question) : List String :=
  if shouldSkipQuestion answers q then []
  else
    let a := answers q.id
    if q.required && isMissingAnswer a then [requiredMissingMsg q]
    else if !(isNullish a) then questionTypeErrors q a
    else []

/-- `CategoryManager.validateAnswers` over a loaded question list: pushes
every question's errors in iteration order; `isValid` iff no errors. -/
def validateAnswers (allQuestions : List Question) (answers : Answers) :
    Bool × List String :=
  let errors := allQuestions.foldl (fun acc q => acc ++ questionErrors answers q) []
  (errors.isEmpty, errors)

/-! ## Concept rules (`src/src/core/concept-mapper/concept-rules.ts`). -/

/-- The condition operators of `ConceptRuleSchema` (`exists` is spelled
`existsOp`; the source stores them as the strings `equals`, `includes`,
`exists`). -/
inductive CondOp where
  | equals : CondOp
  | includes : CondOp
  | existsOp : CondOp
deriving DecidableEq

/-- One entry of a rule's `conditions` array. -/
structure Condition where
  field : String
  operator : CondOp
  value : JsValue

/-- `ConceptRule` (`src/src/core/types.ts` / `ConceptRuleSchema`): the
optional `conflicts` metadata is carried but — as proved below — never
read by the selection code. -/
structure ConceptRule where
  conceptId : String
  conditions : List Condition
  priority : Int
  conflicts : Option (List String)
  category : String

/-- A configuration as consumed by `getApplicableConcepts`:
`Record<string, any>`. -/
def JsConfig : Type := List (String × JsValue)

/-- JavaScript property access `current[key]` on the values occurring in a
configuration: objects yield the stored property (or undefined), every
other value yields undefined. -/
def jsIndex : JsValue → String → JsValue
  | .vObj fields, key =>
    match fields.lookup key with
    | some v => v
    | none => .vUndefined
  | _, _ => .vUndefined

/-- `path.split('.')` on a character list: split at every dot, keeping
empty segments (`"a."` splits into `["a", ""]`, `""` into `[""]`). -/
def splitDotChars : List Char → List String
  | [] => [""]
  | c :: cs =>
    if c = '.' then "" :: splitDotChars cs
    else
      match splitDotChars cs with
      | [] => [String.mk [c]]
      | seg :: rest => String.mk (c :: seg.toList) :: rest

/-- `path.split('.')`. -/
def jsSplitDot (path : String) : List String := splitDotChars path.toList

/-- One step of the reduce in `getNestedValue`:
`current && current[key] !== undefined ? current[key] : undefined`. -/
def jsStep (current : JsValue) (key : String) : JsValue :=
  if truthy current && !(jsStrictEq (jsIndex current key) .vUndefined)
  then jsIndex current key else .vUndefined

/-- `getNestedValue` (`concept-rules.ts` lines 283–287):
`path.split('.').reduce((current, key) => current && current[key] !== undefined ? current[key] : undefined, obj)`. -/
def getNestedValue (obj : JsConfig) (path : String) : JsValue :=
  (jsSplitDot path).foldl jsStep (.vObj obj)

/-- The `switch (condition.operator)` of `getApplicableConcepts`. -/
def matchesCondition (config : JsConfig) (c : Condition) : Bool :=
  let fieldValue := getNestedValue config c.field
  match c.operator with
  | .equals => jsStrictEq fieldValue c.value
  | .includes =>
    match fieldValue with
    | .vArr xs => xs.any (fun x => jsStrictEq x c.value)
    | _ => false
  | .existsOp =>
    !(jsStrictEq fieldValue .vUndefined) && !(jsStrictEq fieldValue .vNull) &&
    !(jsStrictEq fieldValue (.vStr ""))

/-- `isApplicable`: an empty condition list fires unconditionally,
otherwise `conditions.some(...)`. -/
def ruleFires (r : ConceptRule) (config : JsConfig) : Bool :=
  r.conditions.isEmpty || r.conditions.any (matchesCondition config)

/-- The `applicableConcepts` accumulation loop: the `(id, priority)` pairs
of the fired rules, in declaration order. -/
def applicablePairs (rules : List ConceptRule) (config : JsConfig) :
    List (String × Int) :=
  rules.filterMap (fun r =>
    if ruleFires r config then some (r.conceptId, r.priority) else none)

/-- One insertion step of a stable descending sort by priority: the new
element goes after every element of priority ≥ its own.  `Array.prototype.sort`
with comparator `(a, b) => b.priority - a.priority` is exactly a stable
descending sort (stability is mandated by the JavaScript specification),
and any stable sort of the same preorder produces this result. -/
def insertByPriority (x : String × Int) : List (String × Int) → List (String × Int)
  | [] => [x]
  | y :: ys => if y.2 < x.2 then x :: y :: ys else y :: insertByPriority x ys

/-- Stable descending sort by priority (insertion from the left keeps the
declaration order of equal-priority elements). -/
def sortByPriorityDesc (l : List (String × Int)) : List (String × Int) :=
  l.foldl (fun acc x => insertByPriority x acc) []

/-- `getApplicableConcepts`, parameterised by the rule list it closes
over: filter the fired rules, sort by priority descending (stable), map to
concept ids. -/
def getApplicableConceptsFrom (rules : List ConceptRule) (config : JsConfig) :
    List String :=
  (sortByPriorityDesc (applicablePairs rules config)).map (fun p => p.1)

/-- The 29 rules of `concept-rules.ts`, in declaration order. -/
def conceptRules : List ConceptRule :=
  [⟨"tdd", [⟨"followTDD", .equals, .vBool true⟩], 10, none, "craft"⟩,
   ⟨"testing-principles", [⟨"followTDD", .equals, .vBool true⟩], 9, none, "craft"⟩,
   ⟨"code-style", [⟨"linting", .includes, .vStr "eslint"⟩], 8, none, "craft"⟩,
   ⟨"code-review", [⟨"codeReview", .equals, .vBool true⟩], 7, none, "craft"⟩,
   ⟨"exception-handling",
     [⟨"projectType", .equals, .vStr "typescript"⟩,
      ⟨"projectType", .equals, .vStr "javascript"⟩], 6, none, "craft"⟩,
   ⟨"typescript-standards", [⟨"projectType", .equals, .vStr "typescript"⟩], 10, none, "craft"⟩,
   ⟨"typescript-guidelines", [⟨"projectType", .equals, .vStr "typescript"⟩], 9, none, "craft"⟩,
   ⟨"atomic-design", [⟨"uiFramework", .existsOp, .vNull⟩], 8, none, "craft"⟩,
   ⟨"architecture-enforcement", [⟨"strictArchitecture", .equals, .vBool true⟩], 9, none, "craft"⟩,
   ⟨"feature-folder-structure", [⟨"uiFramework", .existsOp, .vNull⟩], 7, none, "craft"⟩,
   ⟨"reusability", [⟨"functionalProgramming", .equals, .vBool true⟩], 6, none, "craft"⟩,
   ⟨"dependency-injection", [⟨"strictArchitecture", .equals, .vBool true⟩], 5, none, "craft"⟩,
   ⟨"dry-principles", [⟨"functionalProgramming", .equals, .vBool true⟩], 5, none, "craft"⟩,
   ⟨"development-workflow", [⟨"followTDD", .equals, .vBool true⟩], 10, none, "process"⟩,
   ⟨"version-control", [], 9, none, "process"⟩,
   ⟨"ci-cd", [⟨"cicd", .equals, .vBool true⟩], 7, none, "process"⟩,
   ⟨"configuration-separation", [], 8, none, "process"⟩,
   ⟨"state-management", [⟨"stateManagement", .existsOp, .vNull⟩], 7, none, "process"⟩,
   ⟨"api-integration", [⟨"uiFramework", .existsOp, .vNull⟩], 6, none, "process"⟩,
   ⟨"security", [⟨"security", .equals, .vBool true⟩], 9, none, "process"⟩,
   ⟨"performance", [⟨"performance", .equals, .vBool true⟩], 7, none, "process"⟩,
   ⟨"logging-monitoring",
     [⟨"logging", .equals, .vBool true⟩,
      ⟨"monitoring", .equals, .vBool true⟩], 5, none, "process"⟩,
   ⟨"documentation", [⟨"documentation", .equals, .vBool true⟩], 6, none, "process"⟩,
   ⟨"working-with-claude",
     [⟨"outputFormats", .includes, .vStr "claude"⟩,
      ⟨"outputFormats", .includes, .vStr "all"⟩], 5, none, "process"⟩,
   ⟨"design-system", [⟨"uiFramework", .existsOp, .vNull⟩], 8, none, "product"⟩,
   ⟨"responsive-design", [⟨"uiFramework", .existsOp, .vNull⟩], 7, none, "product"⟩,
   ⟨"accessibility", [⟨"accessibility", .equals, .vBool true⟩], 9, none, "product"⟩,
   ⟨"i18n", [⟨"i18n", .equals, .vBool true⟩], 6, none, "product"⟩,
   ⟨"naming-conventions", [⟨"uiFramework", .existsOp, .vNull⟩], 5, none, "product"⟩]

/-- `getApplicableConcepts` as exported (closing over `conceptRules`). -/
def getApplicableConcepts (config : JsConfig) : List String :=
  getApplicableConceptsFrom conceptRules config

/-- The dotted-path lookup as the specification words it: descend through
nested objects along the path segments, "yielding undefined for any
missing path segment" (and for a segment applied to a non-object). -/
def specLookup : JsValue → List String → JsValue
  | v, [] => v
  | .vObj fields, k :: ks =>
    (match fields.lookup k with
     | some v => specLookup v ks
     | none => .vUndefined)
  | _, _ :: _ => .vUndefined

/-- The condition-matching relation as the specification words it
(§4.3): `equals` iff the resolved value strictly equals the comparison
value, `includes` iff it is a sequence containing the comparison value,
`exists` iff it is defined, not null, and not the empty string. -/
def specConditionMatches (config : JsConfig) (c : Condition) : Prop :=
  let v := specLookup (.vObj config) (jsSplitDot c.field)
  match c.operator with
  | .equals => jsStrictEq v c.value = true
  | .includes => ∃ xs, v = .vArr xs ∧ ∃ x ∈ xs, jsStrictEq x c.value = true
  | .existsOp => v ≠ .vUndefined ∧ v ≠ .vNull ∧ v ≠ .vStr ""

/-- A rule fires, as the specification words it: an empty condition list
fires unconditionally, otherwise at least one condition matches. -/
def specRuleFires (r : ConceptRule) (config : JsConfig) : Prop :=
  r.conditions = [] ∨ ∃ c ∈ r.conditions, specConditionMatches config c

/-! ## String machinery for the template engine and the content loader. -/

/-- Split a character list at the first occurrence of `pat`, returning the
text before the match and the text after it (`none` if `pat` does not
occur).  This is the search underlying both `String.prototype.replace`
with a string pattern (first occurrence only) and the leftmost-shortest
matching of the non-greedy conditional-block regex. -/
def splitOnFirst (pat : List Char) : List Char → Option (List Char × List Char)
  | [] => if pat.isEmpty then some ([], []) else none
  | c :: cs =>
    if pat.isPrefixOf (c :: cs) then some ([], (c :: cs).drop pat.length)
    else
      match splitOnFirst pat cs with
      | some (pre, post) => some (c :: pre, post)
      | none => none

/-- `true` iff `pat` occurs in `s` as a substring. -/
def containsStr (s pat : String) : Bool :=
  (splitOnFirst pat.toList s.toList).isSome

/-- `{{#if tdd}}` as a character list. -/
def ifOpenMarker : List Char := "\x7b\x7b#if tdd\x7d\x7d".toList

/-- `{{/if}}` as a character list. -/
def ifCloseMarker : List Char := "\x7b\x7b/if\x7d\x7d".toList

/-- The global, non-greedy replace of
`/{{#if tdd}}([\s\S]*?){{\/if}}/g` by `'$1'` (`keep = true`) or `''`
(`keep = false`): repeatedly take the leftmost opening marker followed by
the nearest closing marker, keep or drop the enclosed text, and continue
after the match; unmatched text (including an opening marker with no later
closing marker) is left verbatim. -/
def ifTddBlocksAux (keep : Bool) : Nat → List Char → List Char
  | 0, s => s
  | fuel + 1, s =>
    match splitOnFirst ifOpenMarker s with
    | none => s
    | some (pre, rest) =>
      match splitOnFirst ifCloseMarker rest with
      | none => s
      | some (inner, post) =>
        pre ++ (if keep then inner else []) ++ ifTddBlocksAux keep fuel post

/-- `ifTddBlocksAux` with sufficient fuel (each match consumes at least the
two markers, so the text length strictly decreases and `s.length + 1` steps
always suffice — `ifTddBlocksAux_congr` below makes this precise). -/
def ifTddBlocks (keep : Bool) (s : List Char) : List Char :=
  ifTddBlocksAux keep (s.length + 1) s

/-- `String.prototype.replace` with a plain string pattern: replace the
first occurrence only (the replacement strings used here contain no `$`
patterns). -/
def replaceFirst (s pat rep : String) : String :=
  match splitOnFirst pat.toList s.toList with
  | none => s
  | some (pre, post) => (pre ++ rep.toList ++ post).asString

/-! ## `ProjectConfig` (`src/src/core/types.ts`, superset variant with
`copilot`/`roocode` outputs and `cypress`/`playwright` options).  The
`output.customizations` record is carried by no code modelled here and is
omitted. -/

structure PhilosophyCfg where
  tdd : Bool
  strictArchitecture : Bool
  functionalProgramming : Bool

structure ToolsCfg where
  eslint : Bool
  stylelint : Bool
  testing : List String
  stateManagement : Option String
  uiFramework : Option String
  i18n : Bool

structure QualityCfg where
  accessibility : Bool
  performance : Bool
  security : Bool
  codeReview : Bool

structure InfraCfg where
  cicd : Bool
  logging : Bool
  monitoring : Bool
  documentation : Bool

structure OutputCfg where
  formats : List String
  projectName : String

structure ProjectConfig where
  projectType : String
  philosophy : PhilosophyCfg
  tools : ToolsCfg
  quality : QualityCfg
  infrastructure : InfraCfg
  output : OutputCfg

/-- `ContentLoader.processContentVariables`
(`src/src/resources/content/loaders/ContentLoader.ts` lines 50–67): when
the configured testing list is non-empty, replace the first occurrence of
`{{testing_frameworks}}` by the `' and '`-join of the list; then keep or
drop `{{#if tdd}}...{{/if}}` blocks according to `config.philosophy.tdd`. -/
def processContentVariables (content : String) (config : ProjectConfig) : String :=
  let processed :=
    if decide (0 < config.tools.testing.length) then
      replaceFirst content "\x7b\x7btesting_frameworks\x7d\x7d"
        (String.intercalate " and " config.tools.testing)
    else content
  (ifTddBlocks config.philosophy.tdd processed.toList).asString

/-- `ContentSection` (`ContentTypes.ts`): one loaded, variable-substituted
content fragment.  The source's `section` field is named `sectionName`
(`section` is reserved in Lean). -/
structure ContentSection where
  id : String
  sectionName : String
  content : String
  priority : Int

/-! ## TemplateEngine (`src/unnamed/part_000`, the superset variant with
`copilot`/`roocode` outputs, which the specification designates as
authoritative).  `generateInstructions` obtains `contentSections` from
`ContentLoader.loadContentForConfig`; the loaded sections are passed in
here as an argument ("the same loaded rules and content fragments"), and
each clock read is passed as an argument (`today` for
`new Date().toLocaleDateString()`, `now` for the metadata `Date`). -/

/-- `shouldGenerate`: default to claude+readme when no formats are
requested, otherwise a format is generated iff requested or `all` is
requested. -/
def shouldGenerate (format : String) (requestedFormats : List String) : Bool :=
  if requestedFormats.isEmpty then format == "claude" || format == "readme"
  else requestedFormats.contains format || requestedFormats.contains "all"

/-- `sectionName.charAt(0).toUpperCase() + sectionName.slice(1)`. -/
def capFirst (s : String) : String :=
  match s.toList with
  | [] => ""
  | c :: cs => (c.toUpper :: cs).asString

/-- `getSectionTitle`: the fixed title table, falling back to
capitalisation. -/
def getSectionTitle (sectionName : String) : String :=
  if sectionName == "philosophy" then "Development Philosophy"
  else if sectionName == "language" then "Language-Specific Guidelines"
  else if sectionName == "tools" then "Development Tools & Quality"
  else if sectionName == "quality" then "Quality Assurance"
  else if sectionName == "infrastructure" then "Infrastructure & Operations"
  else capFirst sectionName

/-- `groupContentBySection(...)[name]`: the record built by pushing each
section under its `section` key holds, for each key, exactly the sections
with that key in their original order. -/
def groupBySection (secs : List ContentSection) (name : String) : List ContentSection :=
  secs.filter (fun s => s.sectionName == name)

/-- The keys of `groupContentBySection` in `Object.entries` order:
first-occurrence order of the section names. -/
def sectionKeysInOrder (secs : List ContentSection) : List String :=
  secs.foldl (fun acc s => if acc.contains s.sectionName then acc else acc ++ [s.sectionName]) []

/-- The fixed section order of `generateClaudeInstructions`. -/
def sectionOrder : List String :=
  ["philosophy", "language", "tools", "quality", "infrastructure"]

/-- The lines pushed for one section of the claude document: nothing for
an empty section, otherwise the `##` header, a blank line, and each
fragment body followed by a blank line. -/
def claudeSectionBlock (secs : List ContentSection) (name : String) : List String :=
  let sectionContent := groupBySection secs name
  if sectionContent.isEmpty then []
  else
    ["## " ++ getSectionTitle name, ""] ++
    sectionContent.flatMap (fun c => [c.content, ""])

/-- The `sections` array of `generateClaudeInstructions` before joining. -/
def generateClaudeLines (config : ProjectConfig) (secs : List ContentSection)
    (today : String) : List String :=
  ["# Development Guidelines for " ++ config.output.projectName, ""] ++
  sectionOrder.flatMap (claudeSectionBlock secs) ++
  ["Generated on " ++ today ++ " for " ++ config.projectType ++ " project"]

/-- `generateClaudeInstructions` (`part_000` lines 192–222). -/
def generateClaudeInstructions (config : ProjectConfig) (secs : List ContentSection)
    (today : String) : String :=
  String.intercalate "\n" (generateClaudeLines config secs today)

/-- `extractGuidelinesFromContent` (ignores its content argument). -/
def extractGuidelinesFromContent (config : ProjectConfig) : List String :=
  (if config.philosophy.tdd then
    ["**Test-Driven Development**: Write tests before implementation"] else []) ++
  (if config.philosophy.strictArchitecture then
    ["**Strict Architecture**: Enforced architectural boundaries"] else []) ++
  (if config.philosophy.functionalProgramming then
    ["**Functional Programming**: Immutable data and pure functions"] else []) ++
  (if config.tools.eslint then
    ["**Code Quality**: ESLint for consistent code style"] else []) ++
  (if config.quality.accessibility then
    ["**Accessibility**: WCAG compliance required"] else [])

/-- Truthiness of an optional string setting combined with a `!== 'none'`
check, as in `config.tools.uiFramework && config.tools.uiFramework !== 'none'`. -/
def toolDisplayed (o : Option String) : Bool :=
  match o with
  | some u => !(u == "") && !(u == "none")
  | none => false

/-- `generateReadme` (`part_000` lines 224–303). -/
def generateReadme (config : ProjectConfig) (secs : List ContentSection)
    (today : String) : String :=
  let _ := secs
  String.intercalate "\n"
    (["# " ++ config.output.projectName, "",
      "> Generated development guidelines and project setup", "",
      "## 🚀 Quick Start", "",
      "### Prerequisites",
      "- Node.js 18+"] ++
     (if config.projectType == "typescript" then ["- TypeScript"] else []) ++
     ["",
      "### Installation",
      "```bash",
      "npm install",
      "```", "",
      "### Development",
      "```bash",
      "npm run dev",
      "```", ""] ++
     (if config.philosophy.tdd then
       ["## 🧪 Testing", "",
        "This project follows **Test-Driven Development (TDD)**.", "",
        "```bash",
        "npm test",
        "npm run test:watch",
        "```", ""] else []) ++
     ["## 📋 Development Guidelines", "",
      "This project follows structured development guidelines:", ""] ++
     (extractGuidelinesFromContent config).map (fun g => "- " ++ g) ++
     [""] ++
     ["## 🛠 Technology Stack", "",
      "- **Language**: " ++ config.projectType] ++
     (if decide (0 < config.tools.testing.length) then
       ["- **Testing**: " ++ String.intercalate ", " config.tools.testing] else []) ++
     (if toolDisplayed config.tools.uiFramework then
       ["- **UI Framework**: " ++ config.tools.uiFramework.getD ""] else []) ++
     (if toolDisplayed config.tools.stateManagement then
       ["- **State Management**: " ++ config.tools.stateManagement.getD ""] else []) ++
     [""] ++
     ["## 📚 Documentation", "",
      "- See `CLAUDE.md` for detailed AI assistant instructions"] ++
     (if config.output.formats.contains "vscode" then
       ["- Import `.vscode/settings.json` for IDE configuration"] else []) ++
     [""] ++
     ["Generated on " ++ today])

/-- `extractPrinciplesFromContent`: lines of the fragment bodies whose trim
starts with `- ` and which contain no `##`, stripped of the dash, capped
at ten. -/
def extractPrinciplesFromContent (secs : List ContentSection) : List String :=
  (secs.flatMap (fun s =>
    (s.content.splitOn "\n").filterMap (fun line =>
      if (line.trim).startsWith "- " && !(containsStr line "##") then
        some ((line.trim).drop 2)
      else none))).take 10

/-- `generateCursorRules` (`part_000` lines 305–328). -/
def generateCursorRules (config : ProjectConfig) (secs : List ContentSection)
    (today : String) : String :=
  String.intercalate "\n"
    (["# Cursor Rules for " ++ config.output.projectName, "",
      "## Project Configuration",
      "- Language: " ++ config.projectType,
      "- TDD: " ++ (if config.philosophy.tdd then "Required" else "Optional"),
      "- Architecture: " ++
        (if config.philosophy.strictArchitecture then "Strict" else "Flexible"),
      "",
      "## Core Principles"] ++
     (extractPrinciplesFromContent secs).map (fun p => "- " ++ p) ++
     [""] ++
     ["Generated on " ++ today])

/-- `generateCopilotInstructions` (`part_000` lines 330–362); iterates
`Object.entries(groupedContent)` in key-insertion order. -/
def generateCopilotInstructions (config : ProjectConfig) (secs : List ContentSection)
    (today : String) : String :=
  String.intercalate "\n"
    (["# GitHub Copilot Instructions for " ++ config.output.projectName, "",
      "This file provides specific instructions for GitHub Copilot to follow when working on this project.",
      "",
      "## Project Context",
      "- **Language**: " ++ config.projectType,
      "- **Architecture**: " ++
        (if config.philosophy.strictArchitecture then "Strict" else "Flexible"),
      "- **Testing Approach**: " ++
        (if config.philosophy.tdd then "Test-Driven Development" else "Standard Testing"),
      "",
      "## Code Generation Guidelines", ""] ++
     (sectionKeysInOrder secs).flatMap (fun name =>
       let sectionContent := groupBySection secs name
       if decide (0 < sectionContent.length) then
         ["### " ++ getSectionTitle name] ++
         sectionContent.map (fun c => c.content) ++
         [""]
       else []) ++
     ["Generated on " ++ today])

/-- `convertContentToRules`: each `- ` line becomes a rule, lower-cased and
prefixed with `Generate code that ` unless it already mentions
generate/ensure. -/
def convertContentToRules (content : String) : List String :=
  (content.splitOn "\n").filterMap (fun line =>
    if (line.trim).startsWith "- " then
      let rule := (line.trim).drop 2
      if !(containsStr rule.toLower "generate") && !(containsStr rule.toLower "ensure") then
        some ("Generate code that " ++ rule.toLower)
      else some rule
    else none)

/-- `generateRooCodeInstructions` (`part_000` lines 364–400). -/
def generateRooCodeInstructions (config : ProjectConfig) (secs : List ContentSection)
    (today : String) : String :=
  String.intercalate "\n"
    (["# Roo Code Instructions for " ++ config.output.projectName, "",
      "## Project Configuration",
      "```yaml",
      "project:",
      "  name: \"" ++ config.output.projectName ++ "\"",
      "  type: " ++ config.projectType,
      "  tdd: " ++ (if config.philosophy.tdd then "true" else "false"),
      "  strict_architecture: " ++
        (if config.philosophy.strictArchitecture then "true" else "false"),
      "  functional_programming: " ++
        (if config.philosophy.functionalProgramming then "true" else "false"),
      "```", "",
      "## Generation Rules", ""] ++
     (sectionKeysInOrder secs).flatMap (fun name =>
       let sectionContent := groupBySection secs name
       if decide (0 < sectionContent.length) then
         ["### " ++ getSectionTitle name ++ " Rules"] ++
         sectionContent.flatMap (fun c =>
           (convertContentToRules c.content).map (fun r => "- " ++ r)) ++
         [""]
       else []) ++
     ["# Generated on " ++ today])

/-- A JSON value as built by `generateVSCodeSettings`. -/
inductive Json where
  | str : String → Json
  | bool : Bool → Json
  | arr : List Json → Json
  | obj : List (String × Json) → Json

/-- `JSON.stringify(v, null, 2)` for the JSON shapes occurring here (the
strings involved need no escaping). -/
def jsonRender (indent : Nat) : Json → String
  | .str s => "\"" ++ s ++ "\""
  | .bool b => if b then "true" else "false"
  | .arr xs =>
    if xs.isEmpty then "[]"
    else
      "[\n" ++
      String.intercalate ",\n"
        (xs.attach.map (fun x =>
          String.mk (List.replicate (indent + 2) ' ') ++ jsonRender (indent + 2) x.1)) ++
      "\n" ++ String.mk (List.replicate indent ' ') ++ "]"
  | .obj fields =>
    if fields.isEmpty then "\x7b\x7d"
    else
      "\x7b\n" ++
      String.intercalate ",\n"
        (fields.attach.map (fun f =>
          String.mk (List.replicate (indent + 2) ' ') ++
          "\"" ++ f.1.1 ++ "\": " ++ jsonRender (indent + 2) f.1.2)) ++
      "\n" ++ String.mk (List.replicate indent ' ') ++ "\x7d"
termination_by j => sizeOf j
decreasing_by
  · have hx := List.sizeOf_lt_of_mem x.2
    simp only [Json.arr.sizeOf_spec]
    omega
  · have hx := List.sizeOf_lt_of_mem f.2
    have hf2 : sizeOf f.1.2 < sizeOf f.1 := by
      cases hf : f.1 with
      | mk a b => simp [hf]
    simp only [Json.obj.sizeOf_spec]
    omega

/-- The `settings` record of `generateVSCodeSettings`, in key-insertion
order. -/
def vscodeSettings (config : ProjectConfig) : List (String × Json) :=
  [("editor.formatOnSave", .bool true),
   ("editor.codeActionsOnSave", .obj [("source.fixAll", .bool true)])] ++
  (if config.projectType == "typescript" then
    [("typescript.preferences.includePackageJsonAutoImports", .str "auto"),
     ("typescript.preferences.noSemicolons", .bool false)] else []) ++
  (if config.tools.eslint then
    [("eslint.validate",
      .arr [.str "typescript", .str "typescriptreact", .str "javascript",
            .str "javascriptreact"])] else [])

/-- The `extensions` recommendation array of `generateVSCodeSettings`, in
push order. -/
def vscodeExtensions (config : ProjectConfig) : List String :=
  (if config.projectType == "typescript" then ["ms-vscode.vscode-typescript-next"] else []) ++
  (if config.tools.eslint then ["dbaeumer.vscode-eslint"] else []) ++
  (if config.tools.testing.contains "vitest" then ["zixuanchen.vitest-explorer"] else []) ++
  (if config.tools.testing.contains "jest" then ["orta.vscode-jest"] else []) ++
  (if config.tools.uiFramework == some "react" then ["burkeholland.simple-react-snippets"] else [])

/-- `generateVSCodeSettings` (`part_000` lines 402–446). -/
def generateVSCodeSettings (config : ProjectConfig) : String :=
  jsonRender 0
    (.obj [("settings", .obj (vscodeSettings config)),
           ("extensions",
            .obj [("recommendations", .arr ((vscodeExtensions config).map .str))])])

/-- `GeneratedOutput` (`src/src/core/types.ts`): the per-format rendered
texts plus metadata. -/
structure GeneratedOutput where
  claude : Option String
  vscode : Option String
  readme : Option String
  cursor : Option String
  copilot : Option String
  roocode : Option String
  conceptsUsed : List String
  generatedAt : Nat
  config : ProjectConfig

/-- `TemplateEngine.generateInstructions` (`part_000` lines 143–182):
generate each requested format from the loaded content sections; the
metadata records `contentSections.map(s => s.id)` and the generation
instant. -/
def generateInstructions (config : ProjectConfig) (contentSections : List ContentSection)
    (today : String) (now : Nat) : GeneratedOutput :=
  ⟨(if shouldGenerate "claude" config.output.formats then
      some (generateClaudeInstructions config contentSections today) else none),
   (if shouldGenerate "vscode" config.output.formats then
      some (generateVSCodeSettings config) else none),
   (if shouldGenerate "readme" config.output.formats then
      some (generateReadme config contentSections today) else none),
   (if shouldGenerate "cursor" config.output.formats then
      some (generateCursorRules config contentSections today) else none),
   (if shouldGenerate "copilot" config.output.formats then
      some (generateCopilotInstructions config contentSections today) else none),
   (if shouldGenerate "roocode" config.output.formats then
      some (generateRooCodeInstructions config contentSections today) else none),
   contentSections.map (fun s => s.id),
   now,
   config⟩

/-! ## Concrete fixtures used by witnesses and counterexamples. -/

/-- The empty answer set. -/
def emptyAnswers : Answers := fun _ => .vUndefined

/-- An answer set in which only `followTDD` is answered, with `true`. -/
def tddAnswers : Answers :=
  fun k => if k == "followTDD" then .vBool true else .vUndefined

/-- A typical TypeScript configuration requesting only the claude output. -/
def cfgSample : ProjectConfig :=
  ⟨"typescript", ⟨true, true, true⟩,
   ⟨true, false, ["vitest"], some "zustand", some "react", false⟩,
   ⟨true, true, true, true⟩, ⟨false, false, false, true⟩,
   ⟨["claude"], "My Project"⟩⟩

/-- A configuration whose testing list is empty (the `{{testing_frameworks}}`
variable is unpopulated). -/
def cfgNoTesting : ProjectConfig :=
  ⟨"typescript", ⟨true, true, true⟩,
   ⟨true, false, [], none, none, false⟩,
   ⟨true, true, true, true⟩, ⟨false, false, false, true⟩,
   ⟨["claude"], "My Project"⟩⟩

/-- A single loaded philosophy fragment. -/
def sampleSection : ContentSection := ⟨"tdd", "philosophy", "TDD body", 1⟩

/-- Two always-firing rules whose `conflicts` metadata names each other's
fired concept. -/
def conflictRulesSample : List ConceptRule :=
  [⟨"c1", [], 5, some ["c2"], "craft"⟩, ⟨"c2", [], 4, none, "craft"⟩]

/-- Erase the `conflicts` metadata of a rule, leaving all other fields. -/
def stripConflicts (r : ConceptRule) : ConceptRule :=
  ⟨r.conceptId, r.conditions, r.priority, none, r.category⟩

/-! # Theorems -/

/-- A successful split decomposes the input as prefix ++ pattern ++ suffix. -/
theorem splitOnFirst_eq {pat s pre post : List Char}
    (h : splitOnFirst pat s = some (pre, post)) : s = pre ++ pat ++ post := by
  induction s generalizing pre post with
  | nil =>
    by_cases hp : pat.isEmpty
    · simp only [splitOnFirst, hp, if_true, Option.some.injEq, Prod.mk.injEq] at h
      rcases h with ⟨h1, h2⟩
      simp [← h1, ← h2, List.isEmpty_iff.mp hp]
    · simp [splitOnFirst, hp] at h
  | cons c cs ih =>
    by_cases hp : pat.isPrefixOf (c :: cs)
    · simp only [splitOnFirst, hp, if_true, Option.some.injEq, Prod.mk.injEq] at h
      rcases h with ⟨h1, h2⟩
      have hpre : pat <+: c :: cs := by
        exact List.isPrefixOf_iff_prefix.mp hp
      rcases hpre with ⟨t, ht⟩
      subst h2
      rw [← h1]
      simp only [List.nil_append]
      rw [← ht]
      simp
    · simp only [splitOnFirst, hp, if_false] at h
      cases hsub : splitOnFirst pat cs with
      | none => rw [hsub] at h; exact absurd h (by simp)
      | some pr =>
        rw [hsub] at h
        have h' : (c :: pr.1, pr.2) = (pre, post) := Option.some.inj h
        have h1 : c :: pr.1 = pre := congrArg Prod.fst h'
        have h2 : pr.2 = post := congrArg Prod.snd h'
        have hcs := ih (show splitOnFirst pat cs = some (pr.1, pr.2) from hsub)
        rw [← h1, ← h2, hcs]
        simp

/-- The text after a matched block is strictly shorter than the input. -/
theorem ifTdd_post_lt {s pre rest inner post : List Char}
    (h1 : splitOnFirst ifOpenMarker s = some (pre, rest))
    (h2 : splitOnFirst ifCloseMarker rest = some (inner, post)) :
    post.length < s.length := by
  have e1 := splitOnFirst_eq h1
  have e2 := splitOnFirst_eq h2
  have l1 : ifOpenMarker.length = 11 := rfl
  have l2 : ifCloseMarker.length = 7 := rfl
  have h3 : s.length = pre.length + ifOpenMarker.length + rest.length := by
    rw [e1]; simp only [List.length_append]
  have h4 : rest.length = inner.length + ifCloseMarker.length + post.length := by
    rw [e2]; simp only [List.length_append]
  omega

/-- Fuel irrelevance: any fuel exceeding the text length yields the same
result. -/
theorem ifTddBlocksAux_congr (keep : Bool) :
    ∀ f1 f2 s, s.length < f1 → s.length < f2 →
      ifTddBlocksAux keep f1 s = ifTddBlocksAux keep f2 s := by
  intro f1
  induction f1 with
  | zero => intro f2 s h1 _; omega
  | succ f ih =>
    intro f2 s h1 h2
    cases f2 with
    | zero => omega
    | succ f2 =>
      cases ho : splitOnFirst ifOpenMarker s with
      | none => simp only [ifTddBlocksAux, ho]
      | some pr =>
        obtain ⟨pre, rest⟩ := pr
        cases hc : splitOnFirst ifCloseMarker rest with
        | none => simp only [ifTddBlocksAux, ho, hc]
        | some pr2 =>
          obtain ⟨inner, post⟩ := pr2
          have hlt := ifTdd_post_lt ho hc
          simp only [ifTddBlocksAux, ho, hc]
          rw [ih f2 post (by omega) (by omega)]

/-- The recursion equation of the conditional-block replace, with the fuel
hidden. -/
theorem ifTddBlocks_eq (keep : Bool) (s : List Char) :
    ifTddBlocks keep s =
      match splitOnFirst ifOpenMarker s with
      | none => s
      | some (pre, rest) =>
        match splitOnFirst ifCloseMarker rest with
        | none => s
        | some (inner, post) =>
          pre ++ (if keep then inner else []) ++ ifTddBlocks keep post := by
  cases ho : splitOnFirst ifOpenMarker s with
  | none =>
    conv_lhs => rw [ifTddBlocks]
    simp only [ifTddBlocksAux, ho]
  | some pr =>
    obtain ⟨pre, rest⟩ := pr
    cases hc : splitOnFirst ifCloseMarker rest with
    | none =>
      conv_lhs => rw [ifTddBlocks]
      simp only [ifTddBlocksAux, ho, hc]
    | some pr2 =>
      obtain ⟨inner, post⟩ := pr2
      have hlt := ifTdd_post_lt ho hc
      conv_lhs => rw [ifTddBlocks]
      simp only [ifTddBlocksAux, ho, hc]
      rw [ifTddBlocksAux_congr keep s.length (post.length + 1) post (by omega) (by omega)]
      rfl

/-! ## Question engine lemmas. -/

/-- Every question id of the canonical list finds exactly its own index
(the 19 ids are pairwise distinct). -/
theorem questions_findIdx_self :
    ∀ j : Fin questions.length,
      questions.findIdx? (fun q => q.id == (questions.get j).id) = some j.val := by
  decide

/-- No question of the canonical list has an empty id. -/
theorem questions_id_ne_empty :
    ∀ j : Fin questions.length, (questions.get j).id ≠ "" := by
  decide

/-- Unfolding `getNextQuestion` at a current id that is the `j`-th question:
the result is the skip-scan over the questions after index `j` (or null at
the last index). -/
theorem getNextQuestion_at (answers : Answers) (j : Nat) (h : j < questions.length) :
    getNextQuestion (some ((questions.get ⟨j, h⟩).id)) answers =
      if j + 1 < questions.length then scanQuestions answers (questions.drop (j + 1))
      else none := by
  have hne := questions_id_ne_empty ⟨j, h⟩
  have hidx := questions_findIdx_self ⟨j, h⟩
  simp only [getNextQuestion, if_neg hne, hidx]

/-- The fueled (source-literal) recursion agrees with the total scan as
soon as the fuel covers the remaining questions. -/
theorem getNextQuestionFuel_at (answers : Answers) :
    ∀ fuel j (h : j < questions.length), questions.length - j ≤ fuel →
      getNextQuestionFuel fuel (some ((questions.get ⟨j, h⟩).id)) answers =
        some (getNextQuestion (some ((questions.get ⟨j, h⟩).id)) answers) := by
  intro fuel
  induction fuel with
  | zero => intro j h hf; omega
  | succ fuel ih =>
    intro j h hf
    rw [getNextQuestion_at answers j h]
    have hne := questions_id_ne_empty ⟨j, h⟩
    have hidx := questions_findIdx_self ⟨j, h⟩
    simp only [getNextQuestionFuel, if_neg hne, hidx]
    by_cases h2 : j + 1 < questions.length
    · rw [dif_pos h2, if_pos h2, List.drop_eq_getElem_cons h2]
      cases hdeps : (questions.get ⟨j + 1, h2⟩).dependencies with
      | none =>
        simp only [scanQuestions, List.get_eq_getElem] at hdeps ⊢
        rw [hdeps]
      | some deps =>
        cases hmet : deps.all (depMetQE answers) with
        | true =>
          simp only [scanQuestions, List.get_eq_getElem] at hdeps ⊢
          rw [hdeps]
          simp [hmet]
        | false =>
          simp only [scanQuestions, List.get_eq_getElem] at hdeps ⊢
          rw [hdeps]
          simp only [hmet, Bool.false_eq_true, if_false]
          have ih2 := ih (j + 1) h2 (by omega)
          have hA := getNextQuestion_at answers (j + 1) h2
          simp only [List.get_eq_getElem] at ih2 hA
          rw [ih2, hA]
          by_cases h3 : j + 1 + 1 < questions.length
          · rw [if_pos h3]
          · rw [if_neg h3, List.drop_eq_nil_of_le (by omega)]
            rfl
    · rw [dif_neg h2, if_neg h2]

/-- C10: the source recursion of `getNextQuestion` (re-running `findIndex`
on the id it passes itself) terminates within `questions.length` self-calls
for every current position and every answer set — each recursive call moves
to a strictly later index — and its value is the total skip-scan
`getNextQuestion`.  The bound does not depend on the contents of the
`dependencies` fields (the recursion is positional). -/
theorem getNextQuestion_terminates (curr : Option String) (answers : Answers) :
    getNextQuestionFuel questions.length curr answers =
      some (getNextQuestion curr answers) := by
  match curr with
  | none => rfl
  | some id =>
    by_cases hid : id = ""
    · subst hid; rfl
    · cases hfind : questions.findIdx? (fun q => q.id == id) with
      | none =>
        show getNextQuestionFuel (18 + 1) (some id) answers = _
        simp only [getNextQuestionFuel, if_neg hid, hfind]
        simp only [getNextQuestion, if_neg hid, hfind]
      | some i =>
        have hi := (List.findIdx?_eq_some_iff_findIdx_eq.mp hfind).1
        have hfi := (List.findIdx?_eq_some_iff_findIdx_eq.mp hfind).2
        subst hfi
        have hp0 := @List.findIdx_get _ (fun q => q.id == id) questions hi
        have hid2 :
            (questions.get ⟨List.findIdx (fun q => q.id == id) questions, hi⟩).id = id :=
          eq_of_beq hp0
        rw [← hid2]
        exact getNextQuestionFuel_at answers questions.length _ hi (Nat.sub_le _ _)

/-- The code-level dependency test implies the specification-level
prerequisite-satisfaction rule (`=== true` implies "boolean true"; a
non-empty array is a non-empty sequence). -/
theorem depMetQE_spec (answers : Answers) (d : String)
    (h : depMetQE answers d = true) : specPrereqSatisfied (answers d) := by
  unfold depMetQE at h
  unfold specPrereqSatisfied
  cases hv : answers d with
  | vBool b =>
    rw [hv] at h
    simp only [jsStrictEq, Bool.or_eq_true, beq_iff_eq] at h
    rcases h with h | h
    · exact h
    · cases h
  | vArr xs =>
    rw [hv] at h
    simp only [jsStrictEq, Bool.or_eq_true, decide_eq_true_eq] at h
    rcases h with h | h
    · cases h
    · exact List.length_pos.mp h
  | vUndefined => rw [hv] at h; simp [jsStrictEq] at h
  | vNull => rw [hv] at h; simp [jsStrictEq] at h
  | vStr s => rw [hv] at h; simp [jsStrictEq] at h
  | vNum n => rw [hv] at h; simp [jsStrictEq] at h
  | vObj fs => rw [hv] at h; simp [jsStrictEq] at h

/-- A question returned by the skip-scan had its declared dependency list
fully met under the code's test. -/
theorem scanQuestions_sat (answers : Answers) :
    ∀ (l : List Question) (Q : Question), scanQuestions answers l = some Q →
      ∀ deps, Q.dependencies = some deps → deps.all (depMetQE answers) = true := by
  intro l
  induction l with
  | nil => intro Q h; cases h
  | cons q rest ih =>
    intro Q h deps hdeps
    cases hd : q.dependencies with
    | none =>
      simp only [scanQuestions, hd] at h
      injection h with h
      subst h
      rw [hd] at hdeps
      cases hdeps
    | some deps0 =>
      simp only [scanQuestions, hd] at h
      cases hmet : deps0.all (depMetQE answers) with
      | true =>
        rw [hmet] at h
        simp only [if_true] at h
        injection h with h
        subst h
        rw [hd] at hdeps
        injection hdeps with hdeps
        subst hdeps
        exact hmet
      | false =>
        rw [hmet] at h
        simp only [Bool.false_eq_true, if_false] at h
        exact ih Q h deps hdeps

/-- C2: for every answer set and every current position, whenever the
forward scan `getNextQuestion` returns a question that declares
prerequisites, every declared prerequisite is satisfied under the
specification's rule (boolean value `true`; non-empty sequence; non-blank
trimmed string; otherwise defined).  A question with unmet prerequisites is
skipped, never returned. -/
theorem getNextQuestion_skips_unmet (curr : Option String) (answers : Answers)
    (Q : Question) (deps : List String)
    (h : getNextQuestion curr answers = some Q)
    (hdeps : Q.dependencies = some deps) :
    ∀ d ∈ deps, specPrereqSatisfied (answers d) := by
  intro d hd
  suffices hall : deps.all (depMetQE answers) = true by
    exact depMetQE_spec answers d (List.all_eq_true.mp hall d hd)
  cases curr with
  | none =>
    rw [show getNextQuestion none answers = some qProjectType from rfl] at h
    injection h with h
    rw [← h] at hdeps
    rw [show qProjectType.dependencies = (none : Option (List String)) from rfl] at hdeps
    cases hdeps
  | some id =>
    by_cases hid : id = ""
    · subst hid
      rw [show getNextQuestion (some "") answers = some qProjectType from rfl] at h
      injection h with h
      rw [← h] at hdeps
      rw [show qProjectType.dependencies = (none : Option (List String)) from rfl] at hdeps
      cases hdeps
    · simp only [getNextQuestion, if_neg hid] at h
      cases hfind : questions.findIdx? (fun q => q.id == id) with
      | none => simp only [hfind] at h; cases h
      | some i =>
        simp only [hfind] at h
        by_cases h2 : i + 1 < questions.length
        · rw [if_pos h2] at h
          exact scanQuestions_sat answers _ Q h deps hdeps
        · rw [if_neg h2] at h; cases h

/-- C2 witness: with `followTDD` answered `true`, the scan from `linting`
returns `testingFramework`, whose single prerequisite `followTDD` is
satisfied. -/
theorem getNextQuestion_skips_unmet_witness :
    specPrereqSatisfied (tddAnswers "followTDD") :=
  getNextQuestion_skips_unmet (some "linting") tddAnswers qTestingFramework
    ["followTDD"] rfl rfl "followTDD" (List.mem_singleton_self _)

/-- C7 counterexample: an id absent from the question set is NOT treated as
"no current position": `getNextQuestion` returns null for it, while a null
current position returns the first question. -/
theorem getNextQuestion_unknown_differs :
    ¬ (getNextQuestion (some "not-a-question-id") emptyAnswers =
        getNextQuestion none emptyAnswers) := by
  intro h
  rw [show getNextQuestion (some "not-a-question-id") emptyAnswers = none from rfl,
      show getNextQuestion none emptyAnswers = some qProjectType from rfl] at h
  cases h

/-- C7 (amended): `getNextQuestion` throws no exception on an id absent
from the question set; a non-empty unknown id yields null (`findIndex`
returns `-1`), and only the empty string — falsy in JavaScript — is treated
like a null current position. -/
theorem getNextQuestion_unknown_id (id : String) (answers : Answers)
    (hne : id ≠ "") (hnotin : ∀ q ∈ questions, q.id ≠ id) :
    getNextQuestion (some id) answers = none ∧
    getNextQuestion (some "") answers = getNextQuestion none answers := by
  constructor
  · have hfind : questions.findIdx? (fun q => q.id == id) = none :=
      List.findIdx?_eq_none_iff.mpr (fun q hq => by
        simp only [beq_eq_false_iff_ne, ne_eq]
        exact hnotin q hq)
    simp only [getNextQuestion, if_neg hne, hfind]
  · rfl

/-- C7 witness at the concrete unknown id `zzz`. -/
theorem getNextQuestion_unknown_id_witness :
    getNextQuestion (some "zzz") emptyAnswers = none ∧
    getNextQuestion (some "") emptyAnswers = getNextQuestion none emptyAnswers :=
  getNextQuestion_unknown_id "zzz" emptyAnswers (by decide) (by decide)

/-! ## Validator lemmas (C5). -/

/-- An accumulate-by-append loop is the flat map of its body. -/
theorem foldl_append_eq_flatMap {α β : Type} (f : α → List β) :
    ∀ (l : List α) (acc : List β),
      l.foldl (fun a x => a ++ f x) acc = acc ++ l.flatMap f := by
  intro l
  induction l with
  | nil => intro acc; simp
  | cons x xs ih =>
    intro acc
    simp only [List.foldl_cons, List.flatMap_cons, ih (acc ++ f x), List.append_assoc]

/-- C5: the validator's error list is the in-order concatenation of each
question's errors (all errors are collected, never short-circuiting, in
canonical order); a question whose declared prerequisites are unmet
contributes no errors; a reachable required question whose answer is
absent or the empty string contributes exactly its one missing-required
error (and no format error); and `isValid` is true iff the error list is
empty. -/
theorem validateAnswers_spec (qs : List Question) (answers : Answers) :
    (validateAnswers qs answers).2 = qs.flatMap (questionErrors answers) ∧
    (∀ q : Question, shouldSkipQuestion answers q = true →
      questionErrors answers q = []) ∧
    (∀ q : Question, shouldSkipQuestion answers q = false → q.required = true →
      isMissingAnswer (answers q.id) = true →
      questionErrors answers q = [requiredMissingMsg q]) ∧
    ((validateAnswers qs answers).1 = true ↔ (validateAnswers qs answers).2 = []) := by
  refine ⟨?_, ?_, ?_, ?_⟩
  · show (qs.foldl (fun acc q => acc ++ questionErrors answers q) []) = _
    rw [foldl_append_eq_flatMap (questionErrors answers) qs []]
    simp
  · intro q hskip
    simp only [questionErrors, hskip, if_true]
  · intro q hskip hreq hmiss
    simp only [questionErrors, hskip, Bool.false_eq_true, if_false, hreq, hmiss,
      Bool.and_self, if_true]
  · show ((qs.foldl (fun acc q => acc ++ questionErrors answers q) []).isEmpty = true ↔ _)
    exact List.isEmpty_iff

/-- C5 witness (specification scenario 3): a single required text question
left unanswered yields exactly its missing-required error and an invalid
result. -/
theorem validateAnswers_spec_witness :
    questionErrors emptyAnswers
        ⟨"x", "X question", .text, none, none, none, "output", true, none⟩ =
      [requiredMissingMsg ⟨"x", "X question", .text, none, none, none, "output", true, none⟩] ∧
    ((validateAnswers [⟨"x", "X question", .text, none, none, none, "output", true, none⟩]
        emptyAnswers).1 = true ↔
      (validateAnswers [⟨"x", "X question", .text, none, none, none, "output", true, none⟩]
        emptyAnswers).2 = []) :=
  ⟨(validateAnswers_spec [⟨"x", "X question", .text, none, none, none, "output", true, none⟩]
      emptyAnswers).2.2.1 _ rfl rfl rfl,
   (validateAnswers_spec [⟨"x", "X question", .text, none, none, none, "output", true, none⟩]
      emptyAnswers).2.2.2⟩

/-! ## Concept-rule lemmas (C3, C4, C8). -/

/-- Undefined is absorbing for the reduce step. -/
theorem foldl_jsStep_undefined : ∀ ks : List String, ks.foldl jsStep .vUndefined = .vUndefined := by
  intro ks
  induction ks with
  | nil => rfl
  | cons k ks ih => simpa [jsStep, jsIndex, truthy] using ih

/-- Undefined is absorbing for the specification's lookup. -/
theorem specLookup_undefined : ∀ ks : List String, specLookup .vUndefined ks = .vUndefined := by
  intro ks
  cases ks <;> rfl

/-- The reduce of `getNestedValue` computes the specification's dotted-path
lookup: descending through nested objects, undefined at any missing
segment or non-object intermediate. -/
theorem foldl_jsStep_eq_specLookup :
    ∀ (ks : List String) (v : JsValue), ks.foldl jsStep v = specLookup v ks := by
  intro ks
  induction ks with
  | nil => intro v; cases v <;> rfl
  | cons k ks ih =>
    intro v
    cases v with
    | vObj fields =>
      simp only [List.foldl_cons]
      cases hl : fields.lookup k with
      | none =>
        have hstep : jsStep (JsValue.vObj fields) k = .vUndefined := by
          simp [jsStep, jsIndex, hl, truthy, jsStrictEq]
        rw [hstep, foldl_jsStep_undefined]
        simp [specLookup, hl]
      | some w =>
        cases w <;>
          simp [jsStep, jsIndex, hl, truthy, jsStrictEq, specLookup,
            foldl_jsStep_undefined, specLookup_undefined, ih]
    | vUndefined =>
      simp only [List.foldl_cons]
      have hstep : jsStep JsValue.vUndefined k = .vUndefined := by
        simp [jsStep, truthy]
      rw [hstep, foldl_jsStep_undefined, specLookup_undefined]
    | vNull =>
      simp only [List.foldl_cons]
      have hstep : jsStep JsValue.vNull k = .vUndefined := by
        simp [jsStep, truthy]
      rw [hstep, foldl_jsStep_undefined]
      rfl
    | vBool b =>
      simp only [List.foldl_cons]
      have hstep : jsStep (JsValue.vBool b) k = .vUndefined := by
        simp [jsStep, jsIndex, jsStrictEq]
      rw [hstep, foldl_jsStep_undefined]
      rfl
    | vStr s =>
      simp only [List.foldl_cons]
      have hstep : jsStep (JsValue.vStr s) k = .vUndefined := by
        simp [jsStep, jsIndex, jsStrictEq]
      rw [hstep, foldl_jsStep_undefined]
      rfl
    | vNum n =>
      simp only [List.foldl_cons]
      have hstep : jsStep (JsValue.vNum n) k = .vUndefined := by
        simp [jsStep, jsIndex, jsStrictEq]
      rw [hstep, foldl_jsStep_undefined]
      rfl
    | vArr xs =>
      simp only [List.foldl_cons]
      have hstep : jsStep (JsValue.vArr xs) k = .vUndefined := by
        simp [jsStep, jsIndex, jsStrictEq]
      rw [hstep, foldl_jsStep_undefined]
      rfl

/-- `getNestedValue` is the specification's dotted-path lookup. -/
theorem getNestedValue_eq_specLookup (config : JsConfig) (path : String) :
    getNestedValue config path = specLookup (.vObj config) (jsSplitDot path) :=
  foldl_jsStep_eq_specLookup (jsSplitDot path) (.vObj config)

/-- The code's condition matching coincides with the specification's
wording of the three operators. -/
theorem matchesCondition_iff (config : JsConfig) (c : Condition) :
    matchesCondition config c = true ↔ specConditionMatches config c := by
  unfold matchesCondition specConditionMatches
  rw [getNestedValue_eq_specLookup]
  cases c.operator with
  | equals => exact Iff.rfl
  | includes =>
    cases hv : specLookup (.vObj config) (jsSplitDot c.field) with
    | vArr xs => simp [List.any_eq_true]
    | vUndefined => simp
    | vNull => simp
    | vBool b => simp
    | vStr s => simp
    | vNum n => simp
    | vObj fs => simp
  | existsOp =>
    cases hv : specLookup (.vObj config) (jsSplitDot c.field) with
    | vUndefined => simp [jsStrictEq]
    | vNull => simp [jsStrictEq]
    | vBool b => simp [jsStrictEq]
    | vStr s => simp [jsStrictEq]
    | vNum n => simp [jsStrictEq]
    | vArr xs => simp [jsStrictEq]
    | vObj fs => simp [jsStrictEq]

/-- The code's rule firing coincides with the specification's: empty
condition list fires unconditionally, otherwise some condition matches. -/
theorem ruleFires_iff (r : ConceptRule) (config : JsConfig) :
    ruleFires r config = true ↔ specRuleFires r config := by
  unfold ruleFires specRuleFires
  simp [List.isEmpty_iff, List.any_eq_true, matchesCondition_iff]

/-- Membership in an insertion step. -/
theorem mem_insertByPriority (x z : String × Int) :
    ∀ l, z ∈ insertByPriority x l ↔ z = x ∨ z ∈ l := by
  intro l
  induction l with
  | nil => simp [insertByPriority]
  | cons y ys ih =>
    simp only [insertByPriority]
    by_cases h : y.2 < x.2
    · simp [h]
    · simp [h, ih]
      tauto

/-- Membership through the insert-fold. -/
theorem mem_foldl_insert (z : String × Int) :
    ∀ (l : List (String × Int)) (acc : List (String × Int)),
      z ∈ l.foldl (fun a x => insertByPriority x a) acc ↔ z ∈ acc ∨ z ∈ l := by
  intro l
  induction l with
  | nil => intro acc; simp
  | cons x xs ih =>
    intro acc
    simp only [List.foldl_cons, ih (insertByPriority x acc), mem_insertByPriority]
    simp
    tauto

/-- Sorting by priority preserves membership. -/
theorem mem_sortByPriorityDesc (z : String × Int) (l : List (String × Int)) :
    z ∈ sortByPriorityDesc l ↔ z ∈ l := by
  unfold sortByPriorityDesc
  rw [mem_foldl_insert]
  simp

/-- Membership in the selection output, in terms of the code-level firing
test: a concept id is selected iff some rule carries it and fires. -/
theorem mem_getApplicableConceptsFrom (rules : List ConceptRule) (config : JsConfig)
    (id : String) :
    id ∈ getApplicableConceptsFrom rules config ↔
      ∃ r ∈ rules, r.conceptId = id ∧ ruleFires r config = true := by
  unfold getApplicableConceptsFrom applicablePairs
  simp only [List.mem_map, mem_sortByPriorityDesc, List.mem_filterMap]
  constructor
  · rintro ⟨p, ⟨r, hr, hp⟩, hfst⟩
    cases hf : ruleFires r config with
    | true =>
      rw [if_pos hf] at hp
      injection hp with hp
      refine ⟨r, hr, ?_, hf⟩
      rw [← hfst, ← hp]
    | false =>
      rw [if_neg (by simp [hf])] at hp
      cases hp
  · rintro ⟨r, hr, hid, hf⟩
    exact ⟨(r.conceptId, r.priority), ⟨r, hr, by rw [if_pos hf]⟩, hid⟩

/-- C3: for every rule list and configuration, a concept id appears in the
selection output iff one of its rules fires under the specification's
semantics — a rule with an empty condition list fires unconditionally,
otherwise it fires iff at least one condition matches (disjunction), where
`equals` compares the dotted-path lookup (undefined on missing segments)
strictly to the comparison value, `includes` requires a sequence containing
the comparison value, and `exists` requires defined, not null, and not the
empty string. -/
theorem getApplicableConcepts_semantics (rules : List ConceptRule) (config : JsConfig)
    (id : String) :
    id ∈ getApplicableConceptsFrom rules config ↔
      ∃ r ∈ rules, r.conceptId = id ∧ specRuleFires r config := by
  rw [mem_getApplicableConceptsFrom]
  constructor
  · rintro ⟨r, hr, hid, hf⟩
    exact ⟨r, hr, hid, (ruleFires_iff r config).mp hf⟩
  · rintro ⟨r, hr, hid, hf⟩
    exact ⟨r, hr, hid, (ruleFires_iff r config).mpr hf⟩

/-- Inserting after all elements of greater-or-equal priority preserves the
descending order. -/
theorem insertByPriority_pairwise (x : String × Int) :
    ∀ l, l.Pairwise (fun a b : String × Int => b.2 ≤ a.2) →
      (insertByPriority x l).Pairwise (fun a b : String × Int => b.2 ≤ a.2) := by
  intro l
  induction l with
  | nil => intro _; simp [insertByPriority]
  | cons y ys ih =>
    intro h
    rw [List.pairwise_cons] at h
    simp only [insertByPriority]
    by_cases hlt : y.2 < x.2
    · rw [if_pos hlt]
      rw [List.pairwise_cons]
      constructor
      · intro z hz
        rcases List.mem_cons.mp hz with rfl | hz
        · omega
        · have := h.1 z hz; omega
      · rw [List.pairwise_cons]
        exact h
    · rw [if_neg hlt]
      rw [List.pairwise_cons]
      constructor
      · intro z hz
        rcases (mem_insertByPriority x z ys).mp hz with rfl | hz
        · omega
        · exact h.1 z hz
      · exact ih h.2

/-- Filtering one priority level through an insertion step: the new element
lands at the end of its own level and the other levels are untouched
(this is the stability of the insertion). -/
theorem insertByPriority_filter (p : Int) (x : String × Int) :
    ∀ l, l.Pairwise (fun a b : String × Int => b.2 ≤ a.2) →
      (insertByPriority x l).filter (fun y => y.2 == p) =
        if x.2 == p then l.filter (fun y => y.2 == p) ++ [x]
        else l.filter (fun y => y.2 == p) := by
  intro l
  induction l with
  | nil =>
    intro _
    by_cases hx : x.2 = p
    · simp [insertByPriority, List.filter_cons, hx]
    · simp [insertByPriority, List.filter_cons, hx]
  | cons y ys ih =>
    intro h
    rw [List.pairwise_cons] at h
    simp only [insertByPriority]
    by_cases hlt : y.2 < x.2
    · rw [if_pos hlt]
      by_cases hx : x.2 = p
      · have hxb : (x.2 == p) = true := beq_iff_eq.mpr hx
        have hys : List.filter (fun y => y.2 == p) (y :: ys) = [] := by
          rw [List.filter_eq_nil_iff]
          intro z hz
          have hzlt : z.2 < x.2 := by
            rcases List.mem_cons.mp hz with rfl | hz
            · exact hlt
            · have := h.1 z hz; omega
          have hzp : ¬(z.2 = p) := by omega
          simp [hzp]
        rw [if_pos hxb, hys, List.nil_append,
          List.filter_cons_of_pos (p := fun y : String × Int => y.2 == p) hxb, hys]
      · have hxb : ¬((x.2 == p) = true) := by simp [hx]
        rw [if_neg hxb, List.filter_cons_of_neg (p := fun y : String × Int => y.2 == p) hxb]
    · rw [if_neg hlt]
      by_cases hy : y.2 = p
      · have hyb : (y.2 == p) = true := beq_iff_eq.mpr hy
        rw [List.filter_cons_of_pos (p := fun y : String × Int => y.2 == p) hyb,
          List.filter_cons_of_pos (p := fun y : String × Int => y.2 == p) hyb, ih h.2]
        by_cases hx : x.2 = p
        · have hxb : (x.2 == p) = true := beq_iff_eq.mpr hx
          rw [if_pos hxb, if_pos hxb]
          rfl
        · have hxb : ¬((x.2 == p) = true) := by simp [hx]
          rw [if_neg hxb, if_neg hxb]
      · have hyb : ¬((y.2 == p) = true) := by simp [hy]
        rw [List.filter_cons_of_neg (p := fun y : String × Int => y.2 == p) hyb,
          List.filter_cons_of_neg (p := fun y : String × Int => y.2 == p) hyb, ih h.2]

/-- The insert-fold keeps the list sorted descending and, per priority
level, appends in arrival order (global stability). -/
theorem foldl_insert_sorted_filter :
    ∀ (l acc : List (String × Int)),
      acc.Pairwise (fun a b : String × Int => b.2 ≤ a.2) →
      (l.foldl (fun a x => insertByPriority x a) acc).Pairwise
        (fun a b : String × Int => b.2 ≤ a.2) ∧
      ∀ p, (l.foldl (fun a x => insertByPriority x a) acc).filter (fun y => y.2 == p) =
        acc.filter (fun y => y.2 == p) ++ l.filter (fun y => y.2 == p) := by
  intro l
  induction l with
  | nil => intro acc h; simpa using h
  | cons x xs ih =>
    intro acc h
    simp only [List.foldl_cons]
    have hins := insertByPriority_pairwise x acc h
    obtain ⟨hs, hf⟩ := ih (insertByPriority x acc) hins
    refine ⟨hs, ?_⟩
    intro p
    rw [hf p, insertByPriority_filter p x acc h]
    by_cases hx : x.2 = p
    · have hxb : (x.2 == p) = true := beq_iff_eq.mpr hx
      rw [if_pos hxb, List.filter_cons_of_pos (p := fun y : String × Int => y.2 == p) hxb]
      simp
    · have hxb : ¬((x.2 == p) = true) := by simp [hx]
      rw [if_neg hxb, List.filter_cons_of_neg (p := fun y : String × Int => y.2 == p) hxb]

/-- The stable sort preserves each priority level's relative order. -/
theorem sortByPriorityDesc_filter (l : List (String × Int)) (p : Int) :
    (sortByPriorityDesc l).filter (fun y => y.2 == p) =
      l.filter (fun y => y.2 == p) := by
  unfold sortByPriorityDesc
  have := (foldl_insert_sorted_filter l [] (by simp)).2 p
  simpa using this

/-- A two-element sublist of a list decomposes the list around its two
elements in order. -/
theorem sublist_pair_decomp {α : Type} (a b : α) :
    ∀ l : List α, [a, b].Sublist l →
      ∃ t1 t2 t3, l = t1 ++ (a :: (t2 ++ (b :: t3))) := by
  intro l
  induction l with
  | nil => intro h; exact absurd h (by simp)
  | cons x l2 ih =>
    intro h
    cases h with
    | cons _ h2 =>
      obtain ⟨t1, t2, t3, ht⟩ := ih h2
      exact ⟨x :: t1, t2, t3, by rw [ht]; rfl⟩
    | cons₂ _ h2 =>
      have hb : b ∈ l2 := h2.subset (List.mem_singleton_self b)
      obtain ⟨s, t, hst⟩ := List.append_of_mem hb
      exact ⟨[], s, t, by rw [hst]; rfl⟩

/-- The two distinguished elements of such a decomposition form a sublist. -/
theorem pair_sublist {α : Type} (a b : α) (s1 s2 s3 : List α) :
    [a, b].Sublist (s1 ++ (a :: (s2 ++ (b :: s3)))) := by
  have h1 : [b].Sublist (b :: s3) := (List.nil_sublist s3).cons₂ b
  have h2 : [b].Sublist (s2 ++ (b :: s3)) :=
    h1.trans (List.sublist_append_right s2 (b :: s3))
  have h3 : [a, b].Sublist (a :: (s2 ++ (b :: s3))) := h2.cons₂ a
  exact h3.trans (List.sublist_append_right s1 (a :: (s2 ++ (b :: s3))))

/-- A rule that is in the rule list and fires contributes its
`(id, priority)` pair to the applicable pairs. -/
theorem mem_applicablePairs (rules : List ConceptRule) (config : JsConfig)
    (r : ConceptRule) (hr : r ∈ rules) (hf : ruleFires r config = true) :
    (r.conceptId, r.priority) ∈ applicablePairs rules config :=
  List.mem_filterMap.mpr ⟨r, hr, by rw [if_pos hf]⟩

/-- The sorted pair list underlying the selection output is pairwise
descending in priority. -/
theorem sortByPriorityDesc_pairwise (l : List (String × Int)) :
    (sortByPriorityDesc l).Pairwise (fun a b : String × Int => b.2 ≤ a.2) :=
  (foldl_insert_sorted_filter l [] (by simp)).1

/-- In a pairwise-descending list, a member of strictly greater priority
appears before a member of strictly smaller priority. -/
theorem pairwise_lt_decomp {x y : String × Int} :
    ∀ l : List (String × Int),
      l.Pairwise (fun a b : String × Int => b.2 ≤ a.2) →
      x ∈ l → y ∈ l → y.2 < x.2 →
      ∃ t1 t2 t3, l = t1 ++ (x :: (t2 ++ (y :: t3))) := by
  intro l
  induction l with
  | nil => intro _ hx; cases hx
  | cons z l2 ih =>
    intro h hx hy hlt
    rw [List.pairwise_cons] at h
    rcases List.mem_cons.mp hx with rfl | hx2
    · have hy2 : y ∈ l2 := by
        rcases List.mem_cons.mp hy with rfl | hy2
        · omega
        · exact hy2
      obtain ⟨s, t, hst⟩ := List.append_of_mem hy2
      exact ⟨[], s, t, by rw [hst]; rfl⟩
    · have hy2 : y ∈ l2 := by
        rcases List.mem_cons.mp hy with rfl | hy2
        · have := h.1 x hx2
          omega
        · exact hy2
      obtain ⟨t1, t2, t3, ht⟩ := ih h.2 hx2 hy2 hlt
      exact ⟨z :: t1, t2, t3, by rw [ht]; rfl⟩

/-- C4: the selection output is the id projection of the fired
`(id, priority)` pairs sorted by priority descending — the underlying
sorted pair list is pairwise descending, a fired rule of strictly higher
priority always precedes a fired rule of strictly lower priority
(whichever was declared first), and for two fired rules of equal priority
the one declared earlier in the rule set never appears after the other. -/
theorem selectApplicable_sorted_stable (rules : List ConceptRule) (config : JsConfig)
    (r1 r2 : ConceptRule) (l1 l2 l3 : List ConceptRule)
    (hdec : rules = l1 ++ (r1 :: (l2 ++ (r2 :: l3))))
    (hf1 : ruleFires r1 config = true) (hf2 : ruleFires r2 config = true) :
    getApplicableConceptsFrom rules config =
      (sortByPriorityDesc (applicablePairs rules config)).map (fun p => p.1) ∧
    (sortByPriorityDesc (applicablePairs rules config)).Pairwise
      (fun a b : String × Int => b.2 ≤ a.2) ∧
    (r1.priority = r2.priority →
      ∃ s1 s2 s3, getApplicableConceptsFrom rules config =
        s1 ++ (r1.conceptId :: (s2 ++ (r2.conceptId :: s3)))) ∧
    (r2.priority < r1.priority →
      ∃ s1 s2 s3, getApplicableConceptsFrom rules config =
        s1 ++ (r1.conceptId :: (s2 ++ (r2.conceptId :: s3)))) ∧
    (r1.priority < r2.priority →
      ∃ s1 s2 s3, getApplicableConceptsFrom rules config =
        s1 ++ (r2.conceptId :: (s2 ++ (r1.conceptId :: s3)))) := by
  subst hdec
  have hr1mem : r1 ∈ l1 ++ (r1 :: (l2 ++ (r2 :: l3))) := by simp
  have hr2mem : r2 ∈ l1 ++ (r1 :: (l2 ++ (r2 :: l3))) := by simp
  have hp1 := (mem_sortByPriorityDesc (r1.conceptId, r1.priority)
      (applicablePairs (l1 ++ (r1 :: (l2 ++ (r2 :: l3)))) config)).mpr
    (mem_applicablePairs _ config r1 hr1mem hf1)
  have hp2 := (mem_sortByPriorityDesc (r2.conceptId, r2.priority)
      (applicablePairs (l1 ++ (r1 :: (l2 ++ (r2 :: l3)))) config)).mpr
    (mem_applicablePairs _ config r2 hr2mem hf2)
  have hsorted := sortByPriorityDesc_pairwise
    (applicablePairs (l1 ++ (r1 :: (l2 ++ (r2 :: l3)))) config)
  refine ⟨rfl, hsorted, ?_, ?_, ?_⟩
  · intro hp
    have hsome1 :
        (if ruleFires r1 config then some (r1.conceptId, r1.priority) else none) =
          some (r1.conceptId, r1.priority) := by rw [if_pos hf1]
    have hsome2 :
        (if ruleFires r2 config then some (r2.conceptId, r2.priority) else none) =
          some (r2.conceptId, r2.priority) := by rw [if_pos hf2]
    have hpairs : applicablePairs (l1 ++ (r1 :: (l2 ++ (r2 :: l3)))) config =
        applicablePairs l1 config ++ ((r1.conceptId, r1.priority) ::
          (applicablePairs l2 config ++ ((r2.conceptId, r2.priority) ::
            applicablePairs l3 config))) := by
      unfold applicablePairs
      rw [List.filterMap_append,
        List.filterMap_cons_some
          (f := fun r => if ruleFires r config = true then some (r.conceptId, r.priority) else none)
          hsome1,
        List.filterMap_append,
        List.filterMap_cons_some
          (f := fun r => if ruleFires r config = true then some (r.conceptId, r.priority) else none)
          hsome2]
    have hb1 : (((r1.conceptId, r1.priority) : String × Int).2 == r1.priority) = true :=
      beq_self_eq_true r1.priority
    have hb2 : (((r2.conceptId, r2.priority) : String × Int).2 == r1.priority) = true := by
      show (r2.priority == r1.priority) = true
      rw [hp]
      exact beq_self_eq_true r2.priority
    have hfilter :
        (applicablePairs (l1 ++ (r1 :: (l2 ++ (r2 :: l3)))) config).filter
            (fun y => y.2 == r1.priority) =
          (applicablePairs l1 config).filter (fun y => y.2 == r1.priority) ++
            ((r1.conceptId, r1.priority) ::
            ((applicablePairs l2 config).filter (fun y => y.2 == r1.priority) ++
              ((r2.conceptId, r2.priority) ::
              (applicablePairs l3 config).filter (fun y => y.2 == r1.priority)))) := by
      rw [hpairs, List.filter_append,
        List.filter_cons_of_pos (p := fun y : String × Int => y.2 == r1.priority) hb1,
        List.filter_append,
        List.filter_cons_of_pos (p := fun y : String × Int => y.2 == r1.priority) hb2]
    have hsub1 : [(r1.conceptId, r1.priority), (r2.conceptId, r2.priority)].Sublist
        ((sortByPriorityDesc (applicablePairs (l1 ++ (r1 :: (l2 ++ (r2 :: l3)))) config)).filter
          (fun y => y.2 == r1.priority)) := by
      rw [sortByPriorityDesc_filter, hfilter]
      exact pair_sublist _ _ _ _ _
    have hsub2 := hsub1.trans (List.filter_sublist _)
    obtain ⟨t1, t2, t3, ht⟩ := sublist_pair_decomp _ _ _ hsub2
    refine ⟨t1.map (fun q => q.1), t2.map (fun q => q.1), t3.map (fun q => q.1), ?_⟩
    unfold getApplicableConceptsFrom
    rw [ht]
    simp
  · intro hlt
    obtain ⟨t1, t2, t3, ht⟩ := pairwise_lt_decomp _ hsorted hp1 hp2 hlt
    refine ⟨t1.map (fun q => q.1), t2.map (fun q => q.1), t3.map (fun q => q.1), ?_⟩
    unfold getApplicableConceptsFrom
    rw [ht]
    simp
  · intro hlt
    obtain ⟨t1, t2, t3, ht⟩ := pairwise_lt_decomp _ hsorted hp2 hp1 hlt
    refine ⟨t1.map (fun q => q.1), t2.map (fun q => q.1), t3.map (fun q => q.1), ?_⟩
    unfold getApplicableConceptsFrom
    rw [ht]
    simp

/-- C4 witness: a later-declared priority-9 rule sorts before an earlier
priority-5 rule (descending order), and two equal-priority rules keep
their declaration order (specification scenario 4). -/
theorem selectApplicable_sorted_stable_witness :
    (∃ s1 s2 s3,
      getApplicableConceptsFrom
          [⟨"a1", [], 5, none, "craft"⟩, ⟨"a2", [], 9, none, "craft"⟩] [] =
        s1 ++ ("a2" :: (s2 ++ ("a1" :: s3)))) ∧
    (∃ s1 s2 s3,
      getApplicableConceptsFrom
          [⟨"b1", [], 5, none, "craft"⟩, ⟨"b2", [], 5, none, "craft"⟩] [] =
        s1 ++ ("b1" :: (s2 ++ ("b2" :: s3)))) :=
  ⟨(selectApplicable_sorted_stable
      [⟨"a1", [], 5, none, "craft"⟩, ⟨"a2", [], 9, none, "craft"⟩] []
      ⟨"a1", [], 5, none, "craft"⟩ ⟨"a2", [], 9, none, "craft"⟩ [] [] []
      rfl rfl rfl).2.2.2.2 (by decide),
   (selectApplicable_sorted_stable
      [⟨"b1", [], 5, none, "craft"⟩, ⟨"b2", [], 5, none, "craft"⟩] []
      ⟨"b1", [], 5, none, "craft"⟩ ⟨"b2", [], 5, none, "craft"⟩ [] [] []
      rfl rfl rfl).2.2.1 rfl⟩

/-- C8: the `conflicts`/`conflictsWith` metadata has no effect on rule
selection — replacing every rule's conflict set arbitrarily (any rewrite
`f` that preserves `conceptId`, `conditions` and `priority`) leaves the
selection output unchanged; in particular, when a fired rule's conflict
set names another fired rule's concept id, both ids remain selected. -/
theorem conflicts_have_no_effect (rules : List ConceptRule) (config : JsConfig)
    (f : ConceptRule → ConceptRule)
    (hid : ∀ r, (f r).conceptId = r.conceptId)
    (hcond : ∀ r, (f r).conditions = r.conditions)
    (hprio : ∀ r, (f r).priority = r.priority) :
    getApplicableConceptsFrom (rules.map f) config =
      getApplicableConceptsFrom rules config ∧
    (∀ r1 r2 : ConceptRule, r1 ∈ rules → r2 ∈ rules →
      ruleFires r1 config = true → ruleFires r2 config = true →
      r2.conceptId ∈ r1.conflicts.getD [] →
      r1.conceptId ∈ getApplicableConceptsFrom rules config ∧
      r2.conceptId ∈ getApplicableConceptsFrom rules config) := by
  constructor
  · have hpairs : applicablePairs (rules.map f) config = applicablePairs rules config := by
      unfold applicablePairs
      rw [List.filterMap_map]
      have hfun :
          ((fun r : ConceptRule =>
              if ruleFires r config = true then some (r.conceptId, r.priority) else none) ∘ f) =
            (fun r : ConceptRule =>
              if ruleFires r config = true then some (r.conceptId, r.priority) else none) := by
        funext r
        have hfr : ruleFires (f r) config = ruleFires r config := by
          unfold ruleFires
          rw [hcond r]
        simp only [Function.comp_apply, hfr, hid r, hprio r]
      rw [hfun]
    unfold getApplicableConceptsFrom
    rw [hpairs]
  · intro r1 r2 h1 h2 hfr1 hfr2 _
    exact ⟨(mem_getApplicableConceptsFrom rules config r1.conceptId).mpr ⟨r1, h1, rfl, hfr1⟩,
           (mem_getApplicableConceptsFrom rules config r2.conceptId).mpr ⟨r2, h2, rfl, hfr2⟩⟩

/-- C8 witness: two always-firing rules where the first's conflict set
names the second's concept; erasing the conflict metadata leaves the
output unchanged, and both concept ids are selected. -/
theorem conflicts_have_no_effect_witness :
    getApplicableConceptsFrom (conflictRulesSample.map stripConflicts) [] =
      getApplicableConceptsFrom conflictRulesSample [] ∧
    "c1" ∈ getApplicableConceptsFrom conflictRulesSample [] ∧
    "c2" ∈ getApplicableConceptsFrom conflictRulesSample [] := by
  have h := conflicts_have_no_effect conflictRulesSample [] stripConflicts
    (fun r => rfl) (fun r => rfl) (fun r => rfl)
  have h2 := h.2 ⟨"c1", [], 5, some ["c2"], "craft"⟩ ⟨"c2", [], 4, none, "craft"⟩
    (by simp [conflictRulesSample]) (by simp [conflictRulesSample]) rfl rfl
    (by simp)
  exact ⟨h.1, h2.1, h2.2⟩

/-! ## Generation pipeline (C1). -/

/-- C1 counterexample: two calls of `generateInstructions` with the same
configuration, the same loaded content sections, but different clock
readings produce different claude text, because the rendered footer embeds
`new Date().toLocaleDateString()` — so the claim that equal configuration,
rules and fragments alone guarantee byte-identical documents is false. -/
theorem generateInstructions_clock_counterexample :
    (generateInstructions cfgSample [] "1/1/2025" 0).claude ≠
      (generateInstructions cfgSample [] "1/2/2025" 0).claude := by
  decide

/-- C1 (amended): `generateInstructions` is a pure function of the
configuration, the loaded content sections, and the observed clock — two
calls with the same configuration, the same loaded content sections, and
the same clock readings produce byte-identical rendered text for every
generated document and an identical `conceptsUsed` sequence; and
`conceptsUsed` (the metadata's applied-content-id list) is identical even
across different clock readings. -/
theorem generateInstructions_deterministic
    (c1 c2 : ProjectConfig) (s1 s2 : List ContentSection)
    (t1 t2 : String) (n1 n2 : Nat)
    (hc : c1 = c2) (hs : s1 = s2) (ht : t1 = t2) (hn : n1 = n2) :
    generateInstructions c1 s1 t1 n1 = generateInstructions c2 s2 t2 n2 ∧
    (generateInstructions c1 s1 t1 n1).conceptsUsed =
      (generateInstructions c2 s2 t2 n2).conceptsUsed ∧
    (∀ t3 n3, (generateInstructions c1 s1 t1 n1).conceptsUsed =
      (generateInstructions c1 s1 t3 n3).conceptsUsed) := by
  subst hc hs ht hn
  exact ⟨rfl, rfl, fun _ _ => rfl⟩

/-- C1 witness at a concrete configuration and clock: identical inputs give
identical outputs, and the `conceptsUsed` sequence is unchanged across two
different clock readings. -/
theorem generateInstructions_deterministic_witness :
    generateInstructions cfgSample [sampleSection] "1/1/2025" 0 =
      generateInstructions cfgSample [sampleSection] "1/1/2025" 0 ∧
    (generateInstructions cfgSample [sampleSection] "1/1/2025" 0).conceptsUsed =
      (generateInstructions cfgSample [sampleSection] "1/2/2025" 7).conceptsUsed :=
  ⟨(generateInstructions_deterministic cfgSample cfgSample [sampleSection] [sampleSection]
      "1/1/2025" "1/1/2025" 0 0 rfl rfl rfl rfl).1,
   (generateInstructions_deterministic cfgSample cfgSample [sampleSection] [sampleSection]
      "1/1/2025" "1/1/2025" 0 0 rfl rfl rfl rfl).2.2 "1/2/2025" 7⟩

/-! ## Content variable substitution (C6). -/

/-- Without an opening conditional marker the block replace is the
identity. -/
theorem ifTddBlocks_of_no_marker (keep : Bool) (s : List Char)
    (h : splitOnFirst ifOpenMarker s = none) : ifTddBlocks keep s = s := by
  rw [ifTddBlocks_eq]
  simp only [h]

/-- A false containment test means the split finds nothing. -/
theorem splitOnFirst_of_containsStr_false (s pat : String)
    (h : containsStr s pat = false) : splitOnFirst pat.toList s.toList = none := by
  unfold containsStr at h
  cases hs : splitOnFirst pat.toList s.toList with
  | none => rfl
  | some pr => rw [hs] at h; cases h

/-- C6 counterexample: with an empty testing list, the
`{{testing_frameworks}}` placeholder is NOT rendered as the empty string —
the fragment is returned unchanged and the literal placeholder marker
remains in the output. -/
theorem processContentVariables_leaves_placeholder :
    processContentVariables "Use \x7b\x7btesting_frameworks\x7d\x7d for tests" cfgNoTesting =
      "Use \x7b\x7btesting_frameworks\x7d\x7d for tests" ∧
    containsStr
      (processContentVariables "Use \x7b\x7btesting_frameworks\x7d\x7d for tests" cfgNoTesting)
      "\x7b\x7btesting_frameworks\x7d\x7d" = true := by
  exact ⟨rfl, rfl⟩

/-- C6 (amended): variable substitution is a total function (never
throws); the `{{testing_frameworks}}` placeholder is replaced (by the
`' and '`-join) only when the configured testing list is non-empty — when
the list is empty, a fragment without conditional markers is returned
verbatim, placeholder included, rather than the placeholder rendering as
the empty string. -/
theorem processContentVariables_empty_testing (content : String) (config : ProjectConfig)
    (hempty : config.tools.testing = [])
    (hnoblock : containsStr content "\x7b\x7b#if tdd\x7d\x7d" = false) :
    processContentVariables content config = content := by
  unfold processContentVariables
  rw [hempty]
  show (ifTddBlocks config.philosophy.tdd content.toList).asString = content
  rw [ifTddBlocks_of_no_marker _ _ (splitOnFirst_of_containsStr_false content _ hnoblock)]
  rfl

/-- C6 witness: a concrete fragment whose placeholder survives verbatim. -/
theorem processContentVariables_empty_testing_witness :
    processContentVariables "Keep \x7b\x7btesting_frameworks\x7d\x7d." cfgNoTesting =
      "Keep \x7b\x7btesting_frameworks\x7d\x7d." :=
  processContentVariables_empty_testing "Keep \x7b\x7btesting_frameworks\x7d\x7d."
    cfgNoTesting rfl rfl

/-! ## Claude document assembly (C9). -/

/-- Taking three characters of an append stays within a long-enough left
part. -/
theorem data_take3_append (a b : String) (h : 3 ≤ a.data.length) :
    (a ++ b).data.take 3 = a.data.take 3 := by
  rw [String.data_append]
  exact List.take_append_of_le_length h

/-- Lengths of string appends add. -/
theorem data_length_append (a b : String) :
    (a ++ b).data.length = a.data.length + b.data.length := by
  rw [String.data_append, List.length_append]

/-- Strings that disagree on their first three characters differ. -/
theorem ne_of_data_take3 {a b : String} (h : a.data.take 3 ≠ b.data.take 3) :
    a ≠ b := fun he => h (by rw [he])

/-- A section header starts with hash, hash, space. -/
theorem take3_section_header (t : String) :
    ("## " ++ t).data.take 3 = ['#', '#', ' '] := by
  rw [data_take3_append _ _ (by decide)]
  decide

/-- The document title line starts with hash, space, letter. -/
theorem take3_doc_header (pn : String) :
    ("# Development Guidelines for " ++ pn).data.take 3 = ['#', ' ', 'D'] := by
  rw [data_take3_append _ _ (by decide)]
  decide

/-- The footer line starts with the word Generated. -/
theorem take3_footer (today pt : String) :
    ("Generated on " ++ today ++ " for " ++ pt ++ " project").data.take 3 =
      ['G', 'e', 'n'] := by
  have h13 : ("Generated on ").data.length = 13 := by decide
  have h1 : 3 ≤ ("Generated on " ++ today).data.length := by
    rw [data_length_append]; omega
  have h2 : 3 ≤ ("Generated on " ++ today ++ " for ").data.length := by
    rw [data_length_append, data_length_append]; omega
  have h3 : 3 ≤ ("Generated on " ++ today ++ " for " ++ pt).data.length := by
    rw [data_length_append, data_length_append, data_length_append]; omega
  rw [data_take3_append _ _ h3, data_take3_append _ _ h2,
    data_take3_append _ _ h1, data_take3_append _ _ (by omega)]
  decide

/-- Appending on the left is cancellable for strings. -/
theorem string_append_left_cancel {p a b : String} (h : p ++ a = p ++ b) : a = b := by
  apply String.ext
  have h2 := congrArg String.data h
  rw [String.data_append, String.data_append] at h2
  exact List.append_cancel_left h2

/-- The five fixed section names carry pairwise distinct titles. -/
theorem sectionTitle_inj :
    ∀ n1 ∈ sectionOrder, ∀ n2 ∈ sectionOrder,
      getSectionTitle n1 = getSectionTitle n2 → n1 = n2 := by
  decide

/-- The per-section loop emits exactly the non-empty sections, in the
fixed order, each as its header, a blank line, and its fragments — empty
sections are omitted entirely. -/
theorem claudeBlocks_filter (secs : List ContentSection) :
    ∀ names : List String,
      names.flatMap (claudeSectionBlock secs) =
        (names.filter (fun n => !(groupBySection secs n).isEmpty)).flatMap
          (fun n => ["## " ++ getSectionTitle n, ""] ++
            (groupBySection secs n).flatMap (fun c => [c.content, ""])) := by
  intro names
  induction names with
  | nil => rfl
  | cons n ns ih =>
    simp only [List.flatMap_cons, List.filter_cons]
    cases hg : (groupBySection secs n).isEmpty with
    | true =>
      simp only [claudeSectionBlock, hg, if_true, Bool.not_true, Bool.false_eq_true,
        if_false, List.nil_append]
      try exact ih
    | false =>
      simp only [claudeSectionBlock, hg, Bool.false_eq_true, if_false, Bool.not_false,
        if_true, List.flatMap_cons]
      rw [ih]
      try simp

/-- C9: the claude document's line sequence is its title, then exactly the
non-empty sections in the fixed section order (an empty section contributes
neither header nor body), then the footer; consequently, when no selected
fragment maps to a given section (and no fragment body is itself that
section's header line), the section's header does not occur in the emitted
lines — the rendered text `generateClaudeInstructions` is these lines
joined by newlines. -/
theorem claude_section_omitted (config : ProjectConfig) (secs : List ContentSection)
    (today : String) (name : String)
    (hname : name ∈ sectionOrder)
    (hempty : groupBySection secs name = [])
    (hcontent : ∀ s ∈ secs, s.content ≠ "## " ++ getSectionTitle name) :
    generateClaudeLines config secs today =
      ["# Development Guidelines for " ++ config.output.projectName, ""] ++
        ((sectionOrder.filter (fun n => !(groupBySection secs n).isEmpty)).flatMap
          (fun n => ["## " ++ getSectionTitle n, ""] ++
            (groupBySection secs n).flatMap (fun c => [c.content, ""]))) ++
        ["Generated on " ++ today ++ " for " ++ config.projectType ++ " project"] ∧
    ("## " ++ getSectionTitle name) ∉ generateClaudeLines config secs today ∧
    generateClaudeInstructions config secs today =
      String.intercalate "\n" (generateClaudeLines config secs today) := by
  refine ⟨?_, ?_, rfl⟩
  · unfold generateClaudeLines
    rw [claudeBlocks_filter]
  · intro hmem
    unfold generateClaudeLines at hmem
    rw [claudeBlocks_filter] at hmem
    rcases List.mem_append.mp hmem with hmem1 | hfoot
    · rcases List.mem_append.mp hmem1 with hhead | hmid
      · simp only [List.mem_cons, List.mem_singleton] at hhead
        rcases hhead with heq | heq | heq
        · exact absurd heq.symm (ne_of_data_take3 (by
            rw [take3_doc_header, take3_section_header]
            decide))
        · exact absurd heq (ne_of_data_take3 (by
            rw [take3_section_header]
            decide))
        · cases heq
      · rw [List.mem_flatMap] at hmid
        obtain ⟨n2, hn2, hin⟩ := hmid
        obtain ⟨hn2o, hn2ne⟩ := List.mem_filter.mp hn2
        rcases List.mem_append.mp hin with hh | hcont
        · simp only [List.mem_cons, List.mem_singleton] at hh
          rcases hh with heq | heq | heq
          · have htitle : getSectionTitle name = getSectionTitle n2 :=
              string_append_left_cancel heq
            have hn : name = n2 := sectionTitle_inj name hname n2 hn2o htitle
            rw [← hn, hempty] at hn2ne
            cases hn2ne
          · exact absurd heq (ne_of_data_take3 (by
              rw [take3_section_header]
              decide))
          · cases heq
        · rw [List.mem_flatMap] at hcont
          obtain ⟨c, hcmem, hcml⟩ := hcont
          have hcs : c ∈ secs := (List.mem_filter.mp hcmem).1
          simp only [List.mem_cons, List.mem_singleton] at hcml
          rcases hcml with heq | heq | heq
          · exact hcontent c hcs heq.symm
          · exact absurd heq (ne_of_data_take3 (by
              rw [take3_section_header]
              decide))
          · cases heq
    · simp only [List.mem_singleton] at hfoot
      exact absurd hfoot.symm (ne_of_data_take3 (by
        rw [take3_footer, take3_section_header]
        decide))

/-- C9 witness: with one philosophy fragment selected and no quality
fragments, the quality header is absent from the claude document's lines. -/
theorem claude_section_omitted_witness :
    ("## " ++ getSectionTitle "quality") ∉
      generateClaudeLines cfgSample [sampleSection] "1/1/2025" :=
  (claude_section_omitted cfgSample [sampleSection] "1/1/2025" "quality"
    (by decide) rfl (by decide)).2.1

end LlmCompiler
